import Mathlib

/-!
Verification model of the JULES-IA news-enrichment scripts.

The definitions below are a shallow embedding of the Python sources
`SESSOES_TSE_noticias_viaAPI.py` (the "API variant"),
`SESSOES_TSE_notícias_WEB.py` (the "WEB variant") and
`processar_teses.py`.  Strings are Lean `String`s (sequences of unicode
code points, matching Python `str`), rows are association lists in
insertion order (matching `csv.DictReader` dictionaries), and the
external model client is a parameter.
-/

/-- The single-quote character (ASCII 39). -/
def squoteC : Char := Char.ofNat 39

/-- The left-brace character (ASCII 123). -/
def lbraceC : Char := Char.ofNat 123

/-- The right-brace character (ASCII 125). -/
def rbraceC : Char := Char.ofNat 125

/-- Python `str.strip()` whitespace set (ASCII part, which is all the
scripts ever produce): space, tab, newline, carriage return, vertical
tab, form feed. -/
def pyWs (c : Char) : Bool :=
  c = ' ' || c = '\t' || c = '\n' || c = Char.ofNat 13 ||
  c = Char.ofNat 11 || c = Char.ofNat 12

/-- Drop the characters satisfying `p` from both ends of a character list
(the semantics of Python `str.strip`). -/
def stripBothWith (p : Char → Bool) (cs : List Char) : List Char :=
  ((cs.dropWhile p).reverse.dropWhile p).reverse

/-- Python `s.strip()` (whitespace from both ends). -/
def pyStrip (s : String) : String :=
  String.mk (stripBothWith pyWs s.data)

/-- Python `s.rstrip()` (whitespace from the right end). -/
def pyRstrip (s : String) : String :=
  String.mk ((s.data.reverse.dropWhile pyWs).reverse)

/-- The punctuation set of `_normalize_url`:  `.,;)]}>"` and the single
quote, i.e. Python `strip(".,;)]}>\"'")`. -/
def normStripSet : List Char := ".,;)]\x7d>\"".data ++ [squoteC]

/-! ## A model of `json.loads`

`JValue` is a parsed Python JSON value; numbers keep their source text
(the scripts never do arithmetic on parsed numbers). -/

inductive JValue where
  | null
  | bool (b : Bool)
  | num (raw : String)
  | str (s : String)
  | arr (elems : List JValue)
  | obj (members : List (String × JValue))
  deriving Repr

/-- Hex-digit test (`0-9a-fA-F`). -/
def isHexDigitC (c : Char) : Bool :=
  c.isDigit || (97 ≤ c.toNat && c.toNat ≤ 102) || (65 ≤ c.toNat && c.toNat ≤ 70)

/-- JSON whitespace accepted by Python `json.loads` between tokens. -/
def jsonWsF (c : Char) : Bool :=
  c = ' ' || c = '\t' || c = '\n' || c = Char.ofNat 13

def skipJsonWs (cs : List Char) : List Char := cs.dropWhile jsonWsF

/-- Parse the body of a JSON string literal (the opening quote already
consumed), handling the escape sequences `json.loads` accepts. -/
def parseJString : List Char → List Char → Option (String × List Char)
  | [], _ => none
  | c :: rest, acc =>
    if c = '"' then some (String.mk acc.reverse, rest)
    else if c = '\\' then
      match rest with
      | [] => none
      | e :: rest2 =>
        if e = '"' then parseJString rest2 ('"' :: acc)
        else if e = '\\' then parseJString rest2 ('\\' :: acc)
        else if e = '/' then parseJString rest2 ('/' :: acc)
        else if e = 'b' then parseJString rest2 (Char.ofNat 8 :: acc)
        else if e = 'f' then parseJString rest2 (Char.ofNat 12 :: acc)
        else if e = 'n' then parseJString rest2 ('\n' :: acc)
        else if e = 'r' then parseJString rest2 (Char.ofNat 13 :: acc)
        else if e = 't' then parseJString rest2 ('\t' :: acc)
        else if e = 'u' then
          match rest2 with
          | a :: b :: c2 :: d :: rest3 =>
            if isHexDigitC a && isHexDigitC b && isHexDigitC c2 && isHexDigitC d then
              -- hex digits to value; Char.ofNat is total on Nat
              let hv := fun (ch : Char) =>
                if ch.isDigit then ch.toNat - 48
                else if ch.toNat ≥ 97 then ch.toNat - 87 else ch.toNat - 55
              let w := hv a * 4096 + hv b * 256 + hv c2 * 16 + hv d
              parseJString rest3 (Char.ofNat w :: acc)
            else none
          | _ => none
        else none
    else parseJString rest (c :: acc)

/-- Parse a JSON number token, returning its raw text (grammar of
`json.loads`: optional minus, integer part without leading zeros,
optional fraction, optional exponent). -/
def parseJNumber (cs : List Char) : Option (String × List Char) :=
  let (sign, cs1) :=
    match cs with
    | c :: r => if c = '-' then ([c], r) else (([] : List Char), cs)
    | [] => ([], cs)
  match cs1 with
  | [] => none
  | d :: _ =>
    if !d.isDigit then none
    else
      let ip := cs1.takeWhile Char.isDigit
      let cs2 := cs1.dropWhile Char.isDigit
      if ip.length > 1 && ip.head? = some '0' then none
      else
        let (fr, cs3) :=
          match cs2 with
          | '.' :: r2 =>
            let ds := r2.takeWhile Char.isDigit
            if ds = [] then ([], cs2)
            else ('.' :: ds, r2.dropWhile Char.isDigit)
          | _ => ([], cs2)
        if fr = [] && (match cs2 with | '.' :: _ => true | _ => false) then none
        else
          let (ex, cs4) :=
            match cs3 with
            | e :: r3 =>
              if e = 'e' || e = 'E' then
                let (sg, r4) :=
                  match r3 with
                  | s :: r5 => if s = '+' || s = '-' then ([s], r5) else (([] : List Char), r3)
                  | [] => ([], r3)
                let ds := r4.takeWhile Char.isDigit
                if ds = [] then (([] : List Char), cs3)
                else (e :: sg ++ ds, r4.dropWhile Char.isDigit)
              else ([], cs3)
            | [] => ([], cs3)
          some (String.mk (sign ++ ip ++ fr ++ ex), cs4)

mutual

/-- Fueled recursive-descent JSON value parser (model of Python
`json.loads` on the grammar the scripts exercise). -/
def parseJValue : Nat → List Char → Option (JValue × List Char)
  | 0, _ => none
  | fuel + 1, cs =>
    let cs := skipJsonWs cs
    match cs with
    | [] => none
    | c :: rest =>
      if c = lbraceC then parseJMembers fuel rest true []
      else if c = '[' then parseJElems fuel rest true []
      else if c = '"' then
        match parseJString rest [] with
        | some (s, r) => some (.str s, r)
        | none => none
      else if c = 't' then
        if rest.take 3 = "rue".data then some (.bool true, rest.drop 3) else none
      else if c = 'f' then
        if rest.take 4 = "alse".data then some (.bool false, rest.drop 4) else none
      else if c = 'n' then
        if rest.take 3 = "ull".data then some (.null, rest.drop 3) else none
      else
        match parseJNumber cs with
        | some (raw, r) => some (.num raw, r)
        | none => none

/-- Parse the members of a JSON object after the opening brace. -/
def parseJMembers : Nat → List Char → Bool → List (String × JValue) →
    Option (JValue × List Char)
  | 0, _, _, _ => none
  | fuel + 1, cs, first, acc =>
    let cs := skipJsonWs cs
    match cs with
    | [] => none
    | c :: rest =>
      if c = rbraceC && first then some (.obj acc.reverse, rest)
      else
        let cs2 := if first then cs else (if c = ',' then skipJsonWs rest else [])
        if !first && c ≠ ',' then none
        else
          match cs2 with
          | k :: restk =>
            if k = '"' then
              match parseJString restk [] with
              | none => none
              | some (key, r1) =>
                match skipJsonWs r1 with
                | colon :: r2 =>
                  if colon = ':' then
                    match parseJValue fuel r2 with
                    | none => none
                    | some (v, r3) =>
                      match skipJsonWs r3 with
                      | e :: r4 =>
                        if e = rbraceC then some (.obj ((key, v) :: acc).reverse, r4)
                        else if e = ',' then
                          parseJMembers fuel (',' :: r4) false ((key, v) :: acc)
                        else none
                      | [] => none
                  else none
                | [] => none
            else none
          | [] => none

/-- Parse the elements of a JSON array after the opening bracket. -/
def parseJElems : Nat → List Char → Bool → List JValue →
    Option (JValue × List Char)
  | 0, _, _, _ => none
  | fuel + 1, cs, first, acc =>
    let cs := skipJsonWs cs
    match cs with
    | [] => none
    | c :: rest =>
      if c = ']' && first then some (.arr acc.reverse, rest)
      else
        let cs2 := if first then cs else (if c = ',' then rest else [])
        if !first && c ≠ ',' then none
        else
          match parseJValue fuel cs2 with
          | none => none
          | some (v, r) =>
            match skipJsonWs r with
            | e :: r2 =>
              if e = ']' then some (.arr (v :: acc).reverse, r2)
              else if e = ',' then parseJElems fuel (',' :: r2) false (v :: acc)
              else none
            | [] => none

end

/-- Model of Python `json.loads`: parse one JSON value, allowing
surrounding whitespace, rejecting trailing garbage. -/
def jsonLoads (s : String) : Option JValue :=
  match parseJValue (2 * s.length + 8) s.data with
  | some (v, rest) => if skipJsonWs rest = [] then some v else none
  | none => none

/-! ## URL normalization and domain extraction (`_normalize_url`,
`_domain_from_url`), shared verbatim by both script variants. -/

/-- Python `str.lower()` (character-wise, which is what the hosts here
need). -/
def pyLower (s : String) : String := String.mk (s.data.map Char.toLower)

/-- Case-insensitive test for the regex `^https?://` of `_normalize_url`. -/
def startsHttpCI (s : String) : Bool :=
  "http://".data.isPrefixOf (pyLower s).data ||
  "https://".data.isPrefixOf (pyLower s).data

/-- `_normalize_url`: strip whitespace then the punctuation set from both
ends; empty result stays empty; prepend `https://` when no scheme. -/
def normalize_url (url : String) : String :=
  let cleaned := String.mk
    (stripBothWith (fun c => normStripSet.contains c) (stripBothWith pyWs url.data))
  if cleaned = "" then ""
  else if startsHttpCI cleaned then cleaned
  else "https://" ++ cleaned

/-- Characters allowed in a URL scheme by `urllib.parse.urlparse`. -/
def schemeChar (c : Char) : Bool :=
  c.isAlphanum || c = '+' || c = '-' || c = '.'

/-- Split off a leading `scheme:` the way `urlparse` does, returning the
remainder (the input itself when there is no valid scheme prefix). -/
def splitScheme (cs : List Char) : List Char :=
  let pre := cs.takeWhile (fun c => c ≠ ':')
  if pre.length < cs.length ∧ pre ≠ [] ∧
      (pre.headD ' ').isAlpha ∧ pre.all schemeChar then
    cs.drop (pre.length + 1)
  else cs

/-- The `netloc` of `urlparse`: present only after `//`, running to the
first `/`, `?` or `#` (it includes userinfo and port, as the source's use
of `.netloc` does). -/
def netlocOf (cs : List Char) : List Char :=
  let rest := splitScheme cs
  if rest.take 2 = ['/', '/'] then
    (rest.drop 2).takeWhile (fun c => !(c = '/' || c = '?' || c = '#'))
  else []

/-- `_domain_from_url`: lower-cased netloc with a leading `www.` stripped. -/
def domain_from_url (url : String) : String :=
  let host := pyLower (String.mk (netlocOf url.data))
  if "www.".data.isPrefixOf host.data then String.mk (host.data.drop 4) else host

/-- `_is_tse_domain`. -/
def is_tse_domain (domain : String) : Bool :=
  domain = "tse.jus.br" || ".tse.jus.br".data.isSuffixOf domain.data

/-- Match of the 13-character tail `tre-xx.jus.br` of `TRE_DOMAIN_RE`
(case-insensitive, `xx` any two ASCII letters). -/
def treTail (cs : List Char) : Bool :=
  match cs with
  | [t, r, e, h, a, b, d1, j, u, s, d2, b2, r2] =>
    t.toLower = 't' && r.toLower = 'r' && e.toLower = 'e' && h = '-' &&
    a.isAlpha && b.isAlpha && d1 = '.' && j.toLower = 'j' && u.toLower = 'u' &&
    s.toLower = 's' && d2 = '.' && b2.toLower = 'b' && r2.toLower = 'r'
  | _ => false

/-- `_is_tre_domain`: `TRE_DOMAIN_RE.search(domain)` with the pattern
`(?:^|\.)tre-[a-z]{2}\.jus\.br$` under `re.IGNORECASE`. -/
def is_tre_domain (domain : String) : Bool :=
  let cs := domain.data
  let n := cs.length
  n ≥ 13 && treTail (cs.drop (n - 13)) &&
    (n = 13 || (cs.take (n - 13)).getLast? = some '.')

/-- `GENERAL_DOMAINS` of the API variant. -/
def GENERAL_DOMAINS : List String :=
  ["folha.uol.com.br", "estadao.com.br", "gazetadopovo.com.br",
   "cnnbrasil.com.br", "cnn.com", "conjur.com.br", "migalhas.com.br"]

/-- `GENERAL_DOMAINS` of the WEB variant (three extra outlets). -/
def GENERAL_DOMAINS_WEB : List String :=
  GENERAL_DOMAINS ++ ["g1.globo.com", "oglobo.globo.com", "poder360.com.br"]

/-- `_is_general_domain` (API variant): exact match or dot-separated
subdomain of an allow-listed outlet. -/
def is_general_domain (domain : String) : Bool :=
  GENERAL_DOMAINS.any (fun base =>
    domain = base || ("." ++ base).data.isSuffixOf domain.data)

/-- The WEB variant's general test: a raw suffix match
`any(domain.endswith(gd) for gd in GENERAL_DOMAINS)`. -/
def web_general_suffix (domain : String) : Bool :=
  GENERAL_DOMAINS_WEB.any (fun gd => gd.data.isSuffixOf domain.data)

/-- `_classify_urls` of the API variant, written as the loop it is:
`seen` collects the normalized URLs already placed in a category. -/
def classifyGo (seen : List String) : List String →
    List String × List String × List String
  | [] => ([], [], [])
  | raw :: rest =>
    let n := normalize_url raw
    if n = "" || seen.contains n then classifyGo seen rest
    else
      let d := domain_from_url n
      if d = "" then classifyGo seen rest
      else if is_tse_domain d then
        let (t, r, g) := classifyGo (n :: seen) rest
        (n :: t, r, g)
      else if is_tre_domain d then
        let (t, r, g) := classifyGo (n :: seen) rest
        (t, n :: r, g)
      else if is_general_domain d then
        let (t, r, g) := classifyGo (n :: seen) rest
        (t, r, n :: g)
      else classifyGo seen rest

/-- `_classify_urls` (API variant). -/
def classify_urls (urls : List String) : List String × List String × List String :=
  classifyGo [] urls

/-- `_classify_urls` of the WEB variant: same skeleton, but the general
test is a raw suffix match, the final `else` sends any host without the
substring `jus.br` to the general bucket, and `seen.add` runs even for
dropped URLs. -/
def webClassifyGo (seen : List String) : List String →
    List String × List String × List String
  | [] => ([], [], [])
  | raw :: rest =>
    let n := normalize_url raw
    if n = "" || seen.contains n then webClassifyGo seen rest
    else
      let d := domain_from_url n
      if d = "" then webClassifyGo seen rest
      else if is_tse_domain d then
        let (t, r, g) := webClassifyGo (n :: seen) rest
        (n :: t, r, g)
      else if is_tre_domain d then
        let (t, r, g) := webClassifyGo (n :: seen) rest
        (t, n :: r, g)
      else if web_general_suffix d then
        let (t, r, g) := webClassifyGo (n :: seen) rest
        (t, r, n :: g)
      else if !(decide (List.IsInfix "jus.br".data d.data)) then
        let (t, r, g) := webClassifyGo (n :: seen) rest
        (t, r, n :: g)
      else webClassifyGo (n :: seen) rest

/-- `_classify_urls` (WEB variant). -/
def web_classify_urls (urls : List String) :
    List String × List String × List String :=
  webClassifyGo [] urls

/-! ## `URL_RE.findall` and `_extract_json` -/

/-- The negated character class of `URL_RE`:
whitespace, `]`, `)`, `>`, `,`, `;`, double quote, single quote. -/
def urlStop (c : Char) : Bool :=
  pyWs c || c = ']' || c = ')' || c = '>' || c = ',' || c = ';' ||
  c = '"' || c = squoteC

/-- Left-to-right non-overlapping scan of `URL_RE.findall`
(`https?://[^...]+`, case-insensitive scheme, matches keep source case). -/
def urlFindGo : Nat → List Char → List (List Char)
  | 0, _ => []
  | _ + 1, [] => []
  | fuel + 1, cs@(_ :: rest) =>
    if (cs.take 8).map Char.toLower = "https://".data then
      let body := (cs.drop 8).takeWhile (fun c => !urlStop c)
      if body = [] then urlFindGo fuel rest
      else (cs.take 8 ++ body) :: urlFindGo fuel (cs.drop (8 + body.length))
    else if (cs.take 7).map Char.toLower = "http://".data then
      let body := (cs.drop 7).takeWhile (fun c => !urlStop c)
      if body = [] then urlFindGo fuel rest
      else (cs.take 7 ++ body) :: urlFindGo fuel (cs.drop (7 + body.length))
    else urlFindGo fuel rest

/-- `URL_RE.findall(s)`. -/
def urlFindall (s : String) : List String :=
  (urlFindGo (s.length + 1) s.data).map String.mk

/-- One pass of `re.sub(r"^PAT\s*", "", text, flags=re.MULTILINE)` used to
strip markdown fences: at each line start, a literal `pat` and the
following whitespace run are removed; the next position is again a line
start exactly when the removed whitespace ended in a newline. -/
def reSubFence (pat : List Char) : Nat → Bool → List Char → List Char
  | 0, _, cs => cs
  | fuel + 1, bol, cs =>
    match cs with
    | [] => []
    | c :: rest =>
      if bol && pat.isPrefixOf cs && pat ≠ [] then
        let after := cs.drop pat.length
        let ws := after.takeWhile pyWs
        reSubFence pat fuel (ws.getLast? = some '\n') (after.dropWhile pyWs)
      else c :: reSubFence pat fuel (c = '\n') rest

/-- The fence-stripping prelude of `_extract_json`: remove
` ```json ` fences, then bare ` ``` ` fences, at line starts. -/
def stripFences (s : String) : String :=
  let l1 := reSubFence "```json".data (s.length + 1) true s.data
  let l2 := reSubFence "```".data (l1.length + 1) true l1
  String.mk l2

/-- The fallback span of `re.search(r"\{.*\}", text, re.DOTALL)`: from the
first `{` to the last `}`, when the latter comes after the former. -/
def braceSpan (cs : List Char) : Option (List Char) :=
  match cs.findIdx? (fun c => c = lbraceC) with
  | none => none
  | some i =>
    match cs.reverse.findIdx? (fun c => c = rbraceC) with
    | none => none
    | some jr =>
      let j := cs.length - 1 - jr
      if i < j then some ((cs.drop i).take (j - i + 1)) else none

/-- `_extract_json` (identical in both variants): strip fences and
whitespace, try a direct parse, fall back to the greedy brace span,
finally the empty object.  Note the function returns whatever JSON value
parses — not necessarily an object. -/
def extract_json (text : String) : JValue :=
  let t := pyStrip (stripFences text)
  match jsonLoads t with
  | some v => v
  | none =>
    match braceSpan t.data with
    | none => .obj []
    | some span =>
      match jsonLoads (String.mk span) with
      | some v => v
      | none => .obj []

/-! ## Records, contexts and prompts -/

/-- A CSV record: association list in insertion order (`csv.DictReader`
yields one dict per row with unique keys). -/
abbrev Row := List (String × String)

/-- `row.get(field)`. -/
def rowGet (row : Row) (k : String) : Option String := List.lookup k row

/-- Python dict assignment `row[k] = v`: overwrite in place when the key
exists, append at the end otherwise. -/
def setCol : Row → String → String → Row
  | [], k, v => [(k, v)]
  | (k2, v2) :: t, k, v =>
    if k2 = k then (k, v) :: t else (k2, v2) :: setCol t k v

/-- `NEWS_COLUMNS` (identical in both variants). -/
def NEWS_COLUMNS : List String := ["noticia_TSE", "noticia_TRE", "noticia_geral"]

/-- `CONTEXT_FIELDS` (identical in both variants). -/
def CONTEXT_FIELDS : List String :=
  ["tema", "punchline", "numero_processo", "classe_processo",
   "tribunal", "origem", "data_sessao", "relator", "partes"]

/-- `_build_context(row, max_len)`: select, truncate and join the context
fields (`max_len` is 240 in the API variant and 300 in the WEB variant). -/
def build_context (maxLen : Nat) (row : Row) : String :=
  let lines := CONTEXT_FIELDS.filterMap (fun field =>
    let raw := pyStrip ((rowGet row field).getD "")
    if raw = "" then none
    else
      let raw2 := if raw.length > maxLen
        then pyRstrip (String.mk (raw.data.take maxLen)) ++ "..."
        else raw
      some (field ++ ": " ++ raw2))
  pyStrip (String.intercalate "\n" lines)

/-- `USER_PROMPT_TEMPLATE` of the API variant, up to `{context}`. -/
def USER_PROMPT_PRE : String :=
  "Find news articles related to the following Brazilian electoral court session item. " ++
  "Only include links if the article is clearly about the same case/decision/session. " ++
  "If no relevant news exists, return empty arrays.\n\n" ++
  "Return ONLY a JSON object with keys:\n" ++
  "- noticia_TSE: list of URLs from domains that end with tse.jus.br\n" ++
  "- noticia_TRE: list of URLs from domains that match tre-XX.jus.br (any subdomain)\n" ++
  "- noticia_geral: list of URLs from Folha (folha.uol.com.br), Estadao (estadao.com.br), " ++
  "Gazeta do Povo (gazetadopovo.com.br), CNN (cnnbrasil.com.br or cnn.com), " ++
  "ConJur (conjur.com.br), Migalhas (migalhas.com.br)\n\n" ++
  "Context:\n"

/-- `USER_PROMPT_TEMPLATE.format(context=ctx)` (API variant). -/
def promptOf (ctx : String) : String := USER_PROMPT_PRE ++ ctx ++ "\n"

/-- `USER_PROMPT_TEMPLATE` of the WEB variant, up to `{context}`. -/
def WEB_PROMPT_PRE : String :=
  "Find news articles related to the following Brazilian electoral court session item. " ++
  "Only include links if the article is clearly about the same case/decision/session. " ++
  "If no relevant news exists, return empty arrays.\n\n" ++
  "Return ONLY a JSON object with keys:\n" ++
  "- noticia_TSE: list of URLs from domains that end with tse.jus.br\n" ++
  "- noticia_TRE: list of URLs from domains that match tre-XX.jus.br\n" ++
  "- noticia_geral: list of URLs from major Brazilian news outlets (Folha, Estadao, CNN, G1, Conjur, Migalhas, etc)\n\n" ++
  "Context:\n"

/-- `USER_PROMPT_TEMPLATE.format(context=ctx)` (WEB variant). -/
def webPromptOf (ctx : String) : String := WEB_PROMPT_PRE ++ ctx ++ "\n"

/-! ## The retry wrapper `_call_gemini_with_web_search` (API variant) -/

/-- Outcome of one `client.models.generate_content` attempt: a response
text (possibly empty), or an exception of one of the classes the wrapper
distinguishes (`errors.ClientError` with its HTTP code, `errors.ServerError`,
anything else). -/
inductive Attempt where
  | ok (text : String)
  | clientErr (code : Nat)
  | serverErr
  | otherErr
  deriving Repr, DecidableEq

/-- The attempt did not produce usable text: an exception, or a response
whose extracted text strips to empty (`ValueError("Resposta vazia")`). -/
def attemptFails : Attempt → Prop
  | .ok t => pyStrip t = ""
  | _ => True

instance (a : Attempt) : Decidable (attemptFails a) := by
  cases a <;> simp [attemptFails] <;> infer_instance

/-- The `RuntimeError` raised after the retry budget is exhausted,
carrying `last_err`. -/
inductive ApiFailure where
  | runtime (last : Option Attempt)
  deriving Repr, DecidableEq

/-- Observable result of the wrapper: outcome plus the number of
`generate_content` calls and of backoff sleeps performed. -/
structure CallOut where
  result : Except ApiFailure String
  callsMade : Nat
  sleeps : Nat
  deriving Repr

/-- The `for attempt in range(max_retries)` loop: every exception —
`ClientError` and `ServerError` with jittered exponential backoff, any
other exception (including the empty-response `ValueError`) with plain
exponential backoff — is caught and retried; nothing propagates before
the budget is exhausted. -/
def callGo (attempts : Nat → Attempt) : Nat → Nat → Option Attempt → CallOut
  | 0, _, last => ⟨.error (.runtime last), 0, 0⟩
  | fuel + 1, i, _ =>
    let a := attempts i
    match a with
    | .ok t =>
      let text := pyStrip t
      if text ≠ "" then ⟨.ok text, 1, 0⟩
      else
        let r := callGo attempts fuel (i + 1) (some a)
        ⟨r.result, r.callsMade + 1, r.sleeps + 1⟩
    | _ =>
      let r := callGo attempts fuel (i + 1) (some a)
      ⟨r.result, r.callsMade + 1, r.sleeps + 1⟩

/-- `_call_gemini_with_web_search(client, model, prompt, max_retries, tools)`
with the per-attempt transport outcomes abstracted as `attempts`. -/
def callGemini (attempts : Nat → Attempt) (maxRetries : Nat) : CallOut :=
  callGo attempts maxRetries 0 none

/-- The wrapper under a deterministic transport: every attempt returns
`oracle prompt` as the response text (the setting of the resume law's
mocked deterministic API), with the default `max_retries = 3`. -/
def callDet (oracle : String → String) (prompt : String) :
    Except ApiFailure String :=
  (callGemini (fun _ => .ok (oracle prompt)) 3).result

/-! ## Combining and classifying a response (API variant) -/

/-- Python exceptions that escape the response-combination helpers. -/
inductive PyExc where
  | attributeError
  | typeError
  deriving Repr, DecidableEq

/-- `dict.get(k)` on a parsed JSON value; a non-dict raises
`AttributeError` (later keys win, as in Python dict construction). -/
def jGetAttr : JValue → String → Except PyExc (Option JValue)
  | .obj members, k => .ok (List.lookup k members.reverse)
  | _, _ => .error .attributeError

/-- `_urls_from_value`: keep string elements of a list; wildcard-scan a
scalar string; anything else yields nothing. -/
def urls_from_value : Option JValue → List String
  | some (.arr items) =>
    items.filterMap (fun it => match it with | .str s => some s | _ => none)
  | some (.str s) => urlFindall s
  | _ => []

abbrev UrlTriple := List String × List String × List String

/-- `_combine_urls_from_response` (API variant): extract, gather the three
keys (raising `AttributeError` when the parse result is not a mapping),
fall back to scanning the raw text, classify. -/
def combine_urls_from_response (text : String) : Except PyExc UrlTriple := do
  let data := extract_json text
  let u1 ← jGetAttr data "noticia_TSE"
  let u2 ← jGetAttr data "noticia_TRE"
  let u3 ← jGetAttr data "noticia_geral"
  let urls := urls_from_value u1 ++ urls_from_value u2 ++ urls_from_value u3
  let urls := if urls = [] then urlFindall text else urls
  pure (classify_urls urls)

/-- `_join_urls` / `", ".join`. -/
def joinComma (urls : List String) : String := String.intercalate ", " urls

/-- Write the three news columns of a record (the three dict assignments
in `main`). -/
def setNews (row : Row) (t r g : String) : Row :=
  setCol (setCol (setCol row "noticia_TSE" t) "noticia_TRE" r) "noticia_geral" g

/-! ## The row-processing loop and `main` of the API variant

`main` is modelled from the point where the input rows are in memory,
with the default configuration the claims speak about (`--limit 0`, so
`total = len(rows)`); the argparse/credential prologue has no algorithmic
content.  The external call is a parameter `call` so the same loop serves
the deterministic-oracle instantiation and the retry-wrapper one. -/

/-- Observable state of the row loop. -/
structure LoopOut where
  out : List Row
  processedIdx : List Nat
  callsLog : List String
  cache : List (String × UrlTriple)
  deriving Repr

/-- The `for idx, row in enumerate(rows[:total], start=1)` loop of `main`:
skip already-processed indices, short-circuit blank contexts, consult the
per-run cache, otherwise call and classify — any exception from the call
or the combination degrades the row to empty news columns (the row is
still written), and only successes are cached. -/
def loopGo (call : String → Except ApiFailure String) (pr : Nat) :
    List (String × UrlTriple) → Nat → List Row → LoopOut
  | cache, _, [] => ⟨[], [], [], cache⟩
  | cache, idx, row :: rest =>
    if idx ≤ pr then loopGo call pr cache (idx + 1) rest
    else
      let ctx := build_context 240 row
      if ctx = "" then
        let r := loopGo call pr cache (idx + 1) rest
        ⟨setNews row "" "" "" :: r.out, idx :: r.processedIdx, r.callsLog, r.cache⟩
      else
        match List.lookup ctx cache with
        | some (t, tr, g) =>
          let r := loopGo call pr cache (idx + 1) rest
          ⟨setNews row (joinComma t) (joinComma tr) (joinComma g) :: r.out,
            idx :: r.processedIdx, r.callsLog, r.cache⟩
        | none =>
          match call (promptOf ctx) with
          | .ok text =>
            match combine_urls_from_response text with
            | .ok (t, tr, g) =>
              let r := loopGo call pr ((ctx, (t, tr, g)) :: cache) (idx + 1) rest
              ⟨setNews row (joinComma t) (joinComma tr) (joinComma g) :: r.out,
                idx :: r.processedIdx, promptOf ctx :: r.callsLog, r.cache⟩
            | .error _ =>
              let r := loopGo call pr cache (idx + 1) rest
              ⟨setNews row "" "" "" :: r.out, idx :: r.processedIdx,
                promptOf ctx :: r.callsLog, r.cache⟩
          | .error _ =>
            let r := loopGo call pr cache (idx + 1) rest
            ⟨setNews row "" "" "" :: r.out, idx :: r.processedIdx,
              promptOf ctx :: r.callsLog, r.cache⟩

/-- The value a processed record ends up with, as a function of the record
alone (what one uninterrupted, cache-free processing of the record gives). -/
def process_pure (call : String → Except ApiFailure String) (row : Row) : Row :=
  let ctx := build_context 240 row
  if ctx = "" then setNews row "" "" ""
  else
    match call (promptOf ctx) with
    | .ok text =>
      match combine_urls_from_response text with
      | .ok (t, tr, g) => setNews row (joinComma t) (joinComma tr) (joinComma g)
      | .error _ => setNews row "" "" ""
    | .error _ => setNews row "" "" ""

/-- Contents of the CSV file at `output_path`: absent, existing but with
zero lines, or a header line followed by data rows. -/
inductive FileContent where
  | empty
  | withHeader (header : List String) (rows : List Row)
  deriving Repr, DecidableEq

/-- The `SystemExit` of the resume header check. -/
inductive ConfigError where
  | headerMismatch
  deriving Repr, DecidableEq

/-- Observable outcome of a run of `main`. -/
structure RunOut where
  result : Except ConfigError Unit
  file : Option FileContent
  processedIdx : List Nat
  callsLog : List String

/-- `output_fields`: input schema plus the news columns not already
present, in order. -/
def output_fields (fieldnames : List String) : List String :=
  NEWS_COLUMNS.foldl (fun acc col => if acc.contains col then acc else acc ++ [col])
    fieldnames

/-- `_read_existing_output`: header and number of data rows (an empty file
yields an empty header and zero). -/
def read_existing_output : FileContent → List String × Nat
  | .empty => ([], 0)
  | .withHeader h rs => (h, rs.length)

/-- `main` of the API variant from the point where the input is in memory:
resume handling (header check, append mode, processed-row count), then the
row loop; the resulting `file` is what is durably on disk afterwards. -/
def mainProcess (resume : Bool) (existing : Option FileContent)
    (fieldnames : List String) (rows : List Row)
    (call : String → Except ApiFailure String) : RunOut :=
  if rows = [] then ⟨.ok (), existing, [], []⟩
  else
    let ofs := output_fields fieldnames
    match resume, existing with
    | true, some content =>
      let (h, k) := read_existing_output content
      if h ≠ [] then
        if h ≠ ofs then ⟨.error .headerMismatch, existing, [], []⟩
        else
          -- append mode, k rows already processed
          if k ≥ rows.length then ⟨.ok (), existing, [], []⟩
          else
            let lp := loopGo call k [] 1 rows
            match content with
            | .withHeader h2 rs =>
              ⟨.ok (), some (.withHeader h2 (rs ++ lp.out)), lp.processedIdx, lp.callsLog⟩
            | .empty => ⟨.ok (), none, [], []⟩  -- unreachable: h ≠ []
      else
        let lp := loopGo call 0 [] 1 rows
        ⟨.ok (), some (.withHeader ofs lp.out), lp.processedIdx, lp.callsLog⟩
    | _, _ =>
      let lp := loopGo call 0 [] 1 rows
      ⟨.ok (), some (.withHeader ofs lp.out), lp.processedIdx, lp.callsLog⟩

/-! ## The WEB variant's wrapper and row loop -/

/-- `_call_gemini_with_web_search` of the WEB variant: catches every
exception (a `429`/quota error sleeps a fixed 60 s, anything else backs
off exponentially), returns `"{}"` both on an empty response and after
exhausting the budget — it never raises. -/
def webCallGo (attempts : Nat → Attempt) : Nat → Nat → String × Nat × Nat
  | 0, _ => ("\x7b\x7d", 0, 0)
  | fuel + 1, i =>
    match attempts i with
    | .ok t =>
      if t ≠ "" then (t, 1, 0)
      else ("\x7b\x7d", 1, 0)
    | _ =>
      let (res, calls, sleeps) := webCallGo attempts fuel (i + 1)
      (res, calls + 1, sleeps + 1)

/-- The WEB wrapper: response text, calls made, sleeps performed. -/
def webCallGemini (attempts : Nat → Attempt) (maxRetries : Nat) :
    String × Nat × Nat :=
  webCallGo attempts maxRetries 0

/-- The regex `^noticia_geral_\d+$` of `_apply_geral_links`. -/
def isGeralNumKey (k : String) : Bool :=
  "noticia_geral_".data.isPrefixOf k.data &&
  (k.data.drop 14) ≠ [] && (k.data.drop 14).all Char.isDigit

/-- Add the overflow columns `noticia_geral_i` for the tail of the link
list, returning the updated row and the list of new column names. -/
def addGeralCols : Row → Nat → List String → Row × List String
  | row, _, [] => (row, [])
  | row, i, l :: ls =>
    let col := "noticia_geral_" ++ toString i
    let (row2, cols) := addGeralCols (setCol row col l) (i + 1) ls
    (row2, col :: cols)

/-- `_apply_geral_links`: drop stale numbered columns, set the base
column to the first link, spread the rest over numbered columns. -/
def apply_geral_links (row : Row) (links : List String) : Row × List String :=
  let row1 := row.filter (fun kv => !isGeralNumKey kv.1)
  let row2 := setCol row1 "noticia_geral" (links.headD "")
  addGeralCols row2 1 links.tail

/-- `_process_response_text` (WEB variant): extract, gather string list
elements of the three keys (a non-mapping parse raises `AttributeError`,
which nothing in the WEB loop catches), fall back to scanning the raw
text, classify with the WEB rules. -/
def process_response_text (text : String) :
    Except PyExc (String × String × List String) := do
  let data := extract_json text
  let u1 ← jGetAttr data "noticia_TSE"
  let u2 ← jGetAttr data "noticia_TRE"
  let u3 ← jGetAttr data "noticia_geral"
  let fromVal : Option JValue → List String := fun v =>
    match v with
    | some (.arr items) =>
      items.filterMap (fun it => match it with | .str s => some s | _ => none)
    | _ => []
  let urls := fromVal u1 ++ fromVal u2 ++ fromVal u3
  let urls := if urls = [] then urlFindall text else urls
  let (t, r, g) := web_classify_urls urls
  pure (joinComma t, joinComma r, g)

/-- The value one WEB record ends up with (the call already resolved to a
successfully processed response). -/
def webRowPure (call : String → String) (row : Row) : Row :=
  let ctx := build_context 300 row
  let trip :=
    if ctx = "" then Except.ok ("", "", ([] : List String))
    else process_response_text (call (webPromptOf ctx))
  match trip with
  | .ok (ts, tr, gl) =>
    (apply_geral_links (setCol (setCol row "noticia_TSE" ts) "noticia_TRE" tr) gl).1
  | .error _ => row

/-- The WEB `main` row loop (`for idx, row in enumerate(rows)` with the
automatic skip of `processed_count` already-present rows); there is no
cache, and an `AttributeError` from `_process_response_text` aborts the
loop after the offending call. -/
def webLoopGo (call : String → String) (processed : Nat) :
    Nat → List Row → List Row × List String × Option PyExc
  | _, [] => ([], [], none)
  | idx, row :: rest =>
    if idx < processed then webLoopGo call processed (idx + 1) rest
    else
      let ctx := build_context 300 row
      if ctx = "" then
        let row2 := (apply_geral_links
          (setCol (setCol row "noticia_TSE" "") "noticia_TRE" "") []).1
        let (out, calls, err) := webLoopGo call processed (idx + 1) rest
        (row2 :: out, calls, err)
      else
        let raw := call (webPromptOf ctx)
        match process_response_text raw with
        | .error e => ([], [webPromptOf ctx], some e)
        | .ok (ts, tr, gl) =>
          let row2 := (apply_geral_links
            (setCol (setCol row "noticia_TSE" ts) "noticia_TRE" tr) gl).1
          let (out, calls, err) := webLoopGo call processed (idx + 1) rest
          (row2 :: out, webPromptOf ctx :: calls, err)

/-! ## `carregar_checkpoint` of `processar_teses.py` -/

/-- State of the checkpoint file as the loader can encounter it. -/
inductive CheckpointFile where
  | absent
  | ioError
  | content (s : String)

/-- `data.get(k, default)` with Python dict later-keys-win semantics. -/
def jGetD (members : List (String × JValue)) (k : String) (dflt : JValue) : JValue :=
  (List.lookup k members.reverse).getD dflt

/-- Raw text of an integer JSON number, as an `Int` when it is one. -/
def jIntOf : JValue → Option Int
  | .num raw => raw.toInt?
  | _ => none

/-- `carregar_checkpoint`: a missing file, an `IOError` while reading, or
a `json.JSONDecodeError` all fall back to `(0, [])`; a parsed object is
resumed from; a parsed non-object raises `AttributeError` at `data.get`
(uncaught).  Checkpoint indices written by `salvar_checkpoint` are JSON
integers; non-integer numeric indices (Python floats) are outside the
behaviours any claim exercises and are mapped to `typeError` here. -/
def carregar_checkpoint : CheckpointFile → Except PyExc (Int × JValue)
  | .absent => .ok (0, .arr [])
  | .ioError => .ok (0, .arr [])
  | .content s =>
    match jsonLoads s with
    | none => .ok (0, .arr [])
    | some (.obj members) =>
      let ultimo := jGetD members "ultimo_indice_processado" (.num "-1")
      match jIntOf ultimo with
      | some i => .ok (i + 1, jGetD members "registros_salvos" (.arr []))
      | none => .error .typeError
    | some _ => .error .attributeError

/-! ## Helper lemmas about the API-variant loop -/

/-- `enumerate(items, start=idx)`. -/
def enumFrom : Nat → List α → List (Nat × α)
  | _, [] => []
  | i, a :: as => (i, a) :: enumFrom (i + 1) as

theorem enumFrom_fst_ge {α : Type _} :
    ∀ (items : List α) (idx : Nat) (p : Nat × α),
      p ∈ enumFrom idx items → idx ≤ p.1 := by
  intro items
  induction items with
  | nil => intro idx p h; simp [enumFrom] at h
  | cons a as ih =>
    intro idx p h
    simp only [enumFrom, List.mem_cons] at h
    rcases h with h | h
    · subst h; exact le_refl _
    · exact Nat.le_of_succ_le (ih (idx + 1) p h)

theorem enumFrom_map_snd {α : Type _} :
    ∀ (items : List α) (idx : Nat), (enumFrom idx items).map Prod.snd = items := by
  intro items
  induction items with
  | nil => intro idx; simp [enumFrom]
  | cons a as ih => intro idx; simp [enumFrom, ih]

theorem enumFrom_map_fst {α : Type _} :
    ∀ (items : List α) (idx : Nat),
      (enumFrom idx items).map Prod.fst = List.range' idx items.length := by
  intro items
  induction items with
  | nil => intro idx; simp [enumFrom]
  | cons a as ih => intro idx; simp [enumFrom, List.range'_succ, ih]

theorem enumFrom_filter_all {α : Type _} (pr : Nat) :
    ∀ (items : List α) (idx : Nat), pr < idx →
      (enumFrom idx items).filter (fun p => decide (pr < p.1)) = enumFrom idx items := by
  intro items
  induction items with
  | nil => intro idx _; simp [enumFrom]
  | cons a as ih =>
    intro idx h
    simp only [enumFrom, List.filter_cons]
    rw [if_pos (by simpa using h), ih (idx + 1) (by omega)]

theorem enumFrom_filter_drop {α : Type _} (pr : Nat) :
    ∀ (items : List α) (idx : Nat), idx ≤ pr + 1 →
      (enumFrom idx items).filter (fun p => decide (pr < p.1)) =
        enumFrom (pr + 1) (items.drop (pr + 1 - idx)) := by
  intro items
  induction items with
  | nil => intro idx _; simp [enumFrom]
  | cons a as ih =>
    intro idx h
    by_cases hle : idx ≤ pr
    · have hnot : ¬ pr < idx := by omega
      simp only [enumFrom, List.filter_cons]
      rw [if_neg (by simpa using hnot), ih (idx + 1) (by omega)]
      have : pr + 1 - idx = (pr + 1 - (idx + 1)) + 1 := by omega
      rw [this, List.drop_succ_cons]
    · have hidx : idx = pr + 1 := by omega
      subst hidx
      rw [enumFrom_filter_all pr (a :: as) (pr + 1) (by omega)]
      simp


theorem enumFrom_mem_get {α : Type _} :
    ∀ (items : List α) (idx i : Nat) (h : i < items.length),
      (idx + i, items.get ⟨i, h⟩) ∈ enumFrom idx items := by
  intro items
  induction items with
  | nil => intro idx i h; simp at h
  | cons a as ih =>
    intro idx i h
    cases i with
    | zero => simp [enumFrom]
    | succ i =>
      have hlt : i < as.length := Nat.lt_of_succ_lt_succ h
      have hmem := ih (idx + 1) i hlt
      simp only [enumFrom, List.mem_cons]
      right
      have heq : idx + (i + 1) = (idx + 1) + i := by omega
      rw [heq]
      exact hmem

/-- The cache invariant of the row loop: every entry records a successful
call-and-combination for its context. -/
def CacheGood (call : String → Except ApiFailure String)
    (cache : List (String × UrlTriple)) : Prop :=
  ∀ ctx trip, List.lookup ctx cache = some trip →
    ∃ text, call (promptOf ctx) = .ok text ∧
      combine_urls_from_response text = .ok trip

theorem cacheGood_nil (call : String → Except ApiFailure String) :
    CacheGood call [] := by
  intro ctx trip h
  simp [List.lookup] at h

theorem cacheGood_cons {call : String → Except ApiFailure String}
    {cache : List (String × UrlTriple)} {ctx : String} {text : String}
    {trip : UrlTriple} (hcg : CacheGood call cache)
    (h1 : call (promptOf ctx) = .ok text)
    (h2 : combine_urls_from_response text = .ok trip) :
    CacheGood call ((ctx, trip) :: cache) := by
  intro c t hl
  by_cases hc : c = ctx
  · subst hc
    have : t = trip := by
      simp [List.lookup] at hl
      exact hl.symm
    exact ⟨text, h1, this ▸ h2⟩
  · have hbeq : (c == ctx) = false := by
      simp [hc]
    simp only [List.lookup, hbeq] at hl
    exact hcg c t hl

/-! Step equations for `loopGo`, used to drive the characterization. -/

theorem loopGo_nil (call : String → Except ApiFailure String) (pr : Nat)
    (cache : List (String × UrlTriple)) (idx : Nat) :
    loopGo call pr cache idx [] = ⟨[], [], [], cache⟩ := rfl

theorem loopGo_cons_skip (call : String → Except ApiFailure String) (pr : Nat)
    (cache : List (String × UrlTriple)) (idx : Nat) (row : Row) (rest : List Row)
    (h : idx ≤ pr) :
    loopGo call pr cache idx (row :: rest) = loopGo call pr cache (idx + 1) rest := by
  simp [loopGo, h]

theorem loopGo_cons_empty (call : String → Except ApiFailure String) (pr : Nat)
    (cache : List (String × UrlTriple)) (idx : Nat) (row : Row) (rest : List Row)
    (h : ¬ idx ≤ pr) (h2 : build_context 240 row = "") :
    loopGo call pr cache idx (row :: rest) =
      ⟨setNews row "" "" "" :: (loopGo call pr cache (idx + 1) rest).out,
        idx :: (loopGo call pr cache (idx + 1) rest).processedIdx,
        (loopGo call pr cache (idx + 1) rest).callsLog,
        (loopGo call pr cache (idx + 1) rest).cache⟩ := by
  simp [loopGo, h, h2]

theorem loopGo_cons_hit (call : String → Except ApiFailure String) (pr : Nat)
    (cache : List (String × UrlTriple)) (idx : Nat) (row : Row) (rest : List Row)
    (t tr g : List String)
    (h : ¬ idx ≤ pr) (h2 : build_context 240 row ≠ "")
    (h3 : List.lookup (build_context 240 row) cache = some (t, tr, g)) :
    loopGo call pr cache idx (row :: rest) =
      ⟨setNews row (joinComma t) (joinComma tr) (joinComma g) ::
          (loopGo call pr cache (idx + 1) rest).out,
        idx :: (loopGo call pr cache (idx + 1) rest).processedIdx,
        (loopGo call pr cache (idx + 1) rest).callsLog,
        (loopGo call pr cache (idx + 1) rest).cache⟩ := by
  simp [loopGo, h, h2, h3]

theorem loopGo_cons_ok (call : String → Except ApiFailure String) (pr : Nat)
    (cache : List (String × UrlTriple)) (idx : Nat) (row : Row) (rest : List Row)
    (text : String) (t tr g : List String)
    (h : ¬ idx ≤ pr) (h2 : build_context 240 row ≠ "")
    (h3 : List.lookup (build_context 240 row) cache = none)
    (h4 : call (promptOf (build_context 240 row)) = .ok text)
    (h5 : combine_urls_from_response text = .ok (t, tr, g)) :
    loopGo call pr cache idx (row :: rest) =
      (let r := loopGo call pr ((build_context 240 row, (t, tr, g)) :: cache)
        (idx + 1) rest
      ⟨setNews row (joinComma t) (joinComma tr) (joinComma g) :: r.out,
        idx :: r.processedIdx,
        promptOf (build_context 240 row) :: r.callsLog, r.cache⟩) := by
  simp [loopGo, h, h2, h3, h4, h5]

theorem loopGo_cons_comberr (call : String → Except ApiFailure String) (pr : Nat)
    (cache : List (String × UrlTriple)) (idx : Nat) (row : Row) (rest : List Row)
    (text : String) (e : PyExc)
    (h : ¬ idx ≤ pr) (h2 : build_context 240 row ≠ "")
    (h3 : List.lookup (build_context 240 row) cache = none)
    (h4 : call (promptOf (build_context 240 row)) = .ok text)
    (h5 : combine_urls_from_response text = .error e) :
    loopGo call pr cache idx (row :: rest) =
      ⟨setNews row "" "" "" :: (loopGo call pr cache (idx + 1) rest).out,
        idx :: (loopGo call pr cache (idx + 1) rest).processedIdx,
        promptOf (build_context 240 row) ::
          (loopGo call pr cache (idx + 1) rest).callsLog,
        (loopGo call pr cache (idx + 1) rest).cache⟩ := by
  simp [loopGo, h, h2, h3, h4, h5]

theorem loopGo_cons_callerr (call : String → Except ApiFailure String) (pr : Nat)
    (cache : List (String × UrlTriple)) (idx : Nat) (row : Row) (rest : List Row)
    (e : ApiFailure)
    (h : ¬ idx ≤ pr) (h2 : build_context 240 row ≠ "")
    (h3 : List.lookup (build_context 240 row) cache = none)
    (h4 : call (promptOf (build_context 240 row)) = .error e) :
    loopGo call pr cache idx (row :: rest) =
      ⟨setNews row "" "" "" :: (loopGo call pr cache (idx + 1) rest).out,
        idx :: (loopGo call pr cache (idx + 1) rest).processedIdx,
        promptOf (build_context 240 row) ::
          (loopGo call pr cache (idx + 1) rest).callsLog,
        (loopGo call pr cache (idx + 1) rest).cache⟩ := by
  simp [loopGo, h, h2, h3, h4]

/-! Corresponding evaluation facts for `process_pure`. -/

theorem process_pure_empty (call : String → Except ApiFailure String) (row : Row)
    (h : build_context 240 row = "") :
    process_pure call row = setNews row "" "" "" := by
  simp [process_pure, h]

theorem process_pure_ok (call : String → Except ApiFailure String) (row : Row)
    (text : String) (t tr g : List String)
    (h2 : build_context 240 row ≠ "")
    (h4 : call (promptOf (build_context 240 row)) = .ok text)
    (h5 : combine_urls_from_response text = .ok (t, tr, g)) :
    process_pure call row =
      setNews row (joinComma t) (joinComma tr) (joinComma g) := by
  simp [process_pure, h2, h4, h5]

theorem process_pure_comberr (call : String → Except ApiFailure String) (row : Row)
    (text : String) (e : PyExc)
    (h2 : build_context 240 row ≠ "")
    (h4 : call (promptOf (build_context 240 row)) = .ok text)
    (h5 : combine_urls_from_response text = .error e) :
    process_pure call row = setNews row "" "" "" := by
  simp [process_pure, h2, h4, h5]

theorem process_pure_callerr (call : String → Except ApiFailure String) (row : Row)
    (e : ApiFailure)
    (h2 : build_context 240 row ≠ "")
    (h4 : call (promptOf (build_context 240 row)) = .error e) :
    process_pure call row = setNews row "" "" "" := by
  simp [process_pure, h2, h4]

/-- Characterization of the row loop under the cache invariant: it writes
one `process_pure` record per unskipped input row, in order, and records
exactly the unskipped indices. -/
theorem loopGo_spec (call : String → Except ApiFailure String) (pr : Nat) :
    ∀ (items : List Row) (cache : List (String × UrlTriple)) (idx : Nat),
      CacheGood call cache →
      (loopGo call pr cache idx items).out =
        ((enumFrom idx items).filter (fun p => decide (pr < p.1))).map
          (fun p => process_pure call p.2) ∧
      (loopGo call pr cache idx items).processedIdx =
        ((enumFrom idx items).filter (fun p => decide (pr < p.1))).map Prod.fst := by
  intro items
  induction items with
  | nil => intro cache idx _; simp [loopGo_nil, enumFrom]
  | cons row rest ih =>
    intro cache idx hcg
    by_cases hskip : idx ≤ pr
    · have hnot : ¬ pr < idx := by omega
      rw [loopGo_cons_skip call pr cache idx row rest hskip]
      obtain ⟨ho, hp⟩ := ih cache (idx + 1) hcg
      simp only [enumFrom, List.filter_cons]
      rw [if_neg (by simpa using hnot)]
      exact ⟨ho, hp⟩
    · have hlt : pr < idx := by omega
      have hfc : ((enumFrom idx (row :: rest)).filter
          (fun p => decide (pr < p.1))) =
          (idx, row) :: ((enumFrom (idx + 1) rest).filter
            (fun p => decide (pr < p.1))) := by
        simp only [enumFrom, List.filter_cons]
        rw [if_pos (by simpa using hlt)]
      by_cases hempty : build_context 240 row = ""
      · rw [loopGo_cons_empty call pr cache idx row rest hskip hempty, hfc]
        obtain ⟨ho, hp⟩ := ih cache (idx + 1) hcg
        refine ⟨?_, ?_⟩
        · simp only [List.map_cons]
          rw [ho, process_pure_empty call row hempty]
        · simp only [List.map_cons]
          rw [hp]
      · rcases hlook : List.lookup (build_context 240 row) cache with _ | ⟨⟨t, tr, g⟩⟩
        · rcases hcall : call (promptOf (build_context 240 row)) with e | text
          · rw [loopGo_cons_callerr call pr cache idx row rest e hskip hempty hlook
              hcall, hfc]
            obtain ⟨ho, hp⟩ := ih cache (idx + 1) hcg
            refine ⟨?_, ?_⟩
            · simp only [List.map_cons]
              rw [ho, process_pure_callerr call row e hempty hcall]
            · simp only [List.map_cons]
              rw [hp]
          · rcases hcomb : combine_urls_from_response text with e | ⟨⟨t, tr, g⟩⟩
            · rw [loopGo_cons_comberr call pr cache idx row rest text e hskip hempty
                hlook hcall hcomb, hfc]
              obtain ⟨ho, hp⟩ := ih cache (idx + 1) hcg
              refine ⟨?_, ?_⟩
              · simp only [List.map_cons]
                rw [ho, process_pure_comberr call row text e hempty hcall hcomb]
              · simp only [List.map_cons]
                rw [hp]
            · rw [loopGo_cons_ok call pr cache idx row rest text t tr g hskip hempty
                hlook hcall hcomb, hfc]
              have hcg2 := cacheGood_cons hcg hcall hcomb
              obtain ⟨ho, hp⟩ := ih ((build_context 240 row, (t, tr, g)) :: cache)
                (idx + 1) hcg2
              refine ⟨?_, ?_⟩
              · simp only [List.map_cons]
                rw [ho, process_pure_ok call row text t tr g hempty hcall hcomb]
              · simp only [List.map_cons]
                rw [hp]
        · obtain ⟨text, hcall, hcomb⟩ := hcg _ _ hlook
          rw [loopGo_cons_hit call pr cache idx row rest t tr g hskip hempty hlook,
            hfc]
          obtain ⟨ho, hp⟩ := ih cache (idx + 1) hcg
          refine ⟨?_, ?_⟩
          · simp only [List.map_cons]
            rw [ho, process_pure_ok call row text t tr g hempty hcall hcomb]
          · simp only [List.map_cons]
            rw [hp]

/-! ## Row access lemmas -/

theorem lookupRow_cons (k k2 v : String) (l : Row) :
    rowGet ((k2, v) :: l) k = if k = k2 then some v else rowGet l k := by
  by_cases h : k = k2
  · have hb : (k == k2) = true := by simp [h]
    simp only [rowGet, List.lookup, hb, if_pos h]
  · have hb : (k == k2) = false := by simp [h]
    simp only [rowGet, List.lookup, hb, if_neg h]

theorem setCol_cons (k2 v2 k v : String) (t : Row) :
    setCol ((k2, v2) :: t) k v =
      if k2 = k then (k, v) :: t else (k2, v2) :: setCol t k v := rfl

theorem rowGet_setCol_same : ∀ (row : Row) (k v : String),
    rowGet (setCol row k v) k = some v := by
  intro row
  induction row with
  | nil =>
    intro k v
    show rowGet [(k, v)] k = some v
    rw [lookupRow_cons, if_pos rfl]
  | cons kv t ih =>
    intro k v
    obtain ⟨k2, v2⟩ := kv
    rw [setCol_cons]
    by_cases h : k2 = k
    · rw [if_pos h, lookupRow_cons, if_pos rfl]
    · rw [if_neg h, lookupRow_cons, if_neg (fun hc => h hc.symm)]
      exact ih k v

theorem rowGet_setCol_other : ∀ (row : Row) (k v k2 : String), k2 ≠ k →
    rowGet (setCol row k v) k2 = rowGet row k2 := by
  intro row
  induction row with
  | nil =>
    intro k v k2 h
    show rowGet [(k, v)] k2 = rowGet [] k2
    rw [lookupRow_cons, if_neg h]
  | cons kv t ih =>
    intro k v k2 h
    obtain ⟨k3, v3⟩ := kv
    rw [setCol_cons]
    by_cases h3 : k3 = k
    · subst h3
      rw [if_pos rfl, lookupRow_cons, lookupRow_cons, if_neg h, if_neg h]
    · rw [if_neg h3, lookupRow_cons, lookupRow_cons]
      by_cases hk2 : k2 = k3
      · rw [if_pos hk2, if_pos hk2]
      · rw [if_neg hk2, if_neg hk2]
        exact ih k v k2 h

theorem rowGet_news (row : Row) (t r g : String) :
    rowGet (setNews row t r g) "noticia_TSE" = some t ∧
    rowGet (setNews row t r g) "noticia_TRE" = some r ∧
    rowGet (setNews row t r g) "noticia_geral" = some g := by
  unfold setNews
  refine ⟨?_, ?_, ?_⟩
  · rw [rowGet_setCol_other _ _ _ _ (by decide),
      rowGet_setCol_other _ _ _ _ (by decide), rowGet_setCol_same]
  · rw [rowGet_setCol_other _ _ _ _ (by decide), rowGet_setCol_same]
  · rw [rowGet_setCol_same]

/-- `output_fields` is never empty (it always carries the news columns past
the input schema). -/
theorem output_fields_ne_nil (fieldnames : List String) :
    output_fields fieldnames ≠ [] := by
  have aux : ∀ (cols : List String) (acc : List String), cols ≠ [] ∨ acc ≠ [] →
      List.foldl (fun acc col => if acc.contains col then acc else acc ++ [col])
        acc cols ≠ [] := by
    intro cols
    induction cols with
    | nil =>
      intro acc h
      rcases h with h | h
      · exact absurd rfl h
      · simpa using h
    | cons c cs ih =>
      intro acc _
      simp only [List.foldl_cons]
      by_cases hc : acc.contains c
      · rw [if_pos hc]
        refine ih acc (Or.inr ?_)
        intro hnil
        subst hnil
        simp [List.contains] at hc
      · rw [if_neg hc]
        exact ih (acc ++ [c]) (Or.inr (by simp))
  exact aux NEWS_COLUMNS fieldnames (Or.inl (by simp [NEWS_COLUMNS]))

set_option maxRecDepth 8192 in
/-- The prompt template determines the context: `promptOf` is injective. -/
theorem promptOf_inj {a b : String} (h : promptOf a = promptOf b) : a = b := by
  unfold promptOf at h
  have hd := congrArg String.data h
  simp only [String.data_append, List.append_assoc] at hd
  have h1 := List.append_cancel_left hd
  have h2 := List.append_cancel_right h1
  cases a
  cases b
  exact congrArg String.mk h2

/-! ## Retry-wrapper lemmas -/

theorem callGo_fail_step (attempts : Nat → Attempt) (fuel i : Nat)
    (last : Option Attempt) (h : attemptFails (attempts i)) :
    (callGo attempts (fuel + 1) i last).result =
      (callGo attempts fuel (i + 1) (some (attempts i))).result := by
  cases hA : attempts i with
  | ok t =>
    have ht : pyStrip t = "" := by
      have := h
      rw [hA] at this
      simpa [attemptFails] using this
    simp [callGo, hA, ht]
  | clientErr c => simp [callGo, hA]
  | serverErr => simp [callGo, hA]
  | otherErr => simp [callGo, hA]

/-- Exhausting `max_retries = 3` on three failing attempts raises
`RuntimeError` carrying the last failure — regardless of what a fourth
attempt would have returned. -/
theorem callGemini_three_fails (attempts : Nat → Attempt)
    (h : ∀ k, k < 3 → attemptFails (attempts k)) :
    (callGemini attempts 3).result = .error (.runtime (some (attempts 2))) := by
  unfold callGemini
  rw [callGo_fail_step attempts 2 0 none (h 0 (by omega)),
    callGo_fail_step attempts 1 1 _ (h 1 (by omega)),
    callGo_fail_step attempts 0 2 _ (h 2 (by omega))]
  rfl

/-! ## Skipping and `mainProcess` characterizations -/

theorem loopGo_all_skip (call : String → Except ApiFailure String) (pr : Nat) :
    ∀ (items : List Row) (cache : List (String × UrlTriple)) (idx : Nat),
      idx + items.length ≤ pr + 1 →
      loopGo call pr cache idx items = ⟨[], [], [], cache⟩ := by
  intro items
  induction items with
  | nil => intro cache idx _; rfl
  | cons row rest ih =>
    intro cache idx h
    have hle : idx ≤ pr := by
      simp only [List.length_cons] at h
      omega
    rw [loopGo_cons_skip call pr cache idx row rest hle]
    exact ih cache (idx + 1) (by simp at h ⊢; omega)

theorem enumFrom_map_over_snd {α β : Type _} (f : α → β) :
    ∀ (items : List α) (idx : Nat),
      (enumFrom idx items).map (fun p => f p.2) = items.map f := by
  intro items idx
  rw [show (fun (p : Nat × α) => f p.2) = f ∘ Prod.snd from rfl,
    ← List.map_map, enumFrom_map_snd]

/-- A fresh (non-resume) run writes the header and one `process_pure`
record per input row, and processes indices `1 .. N`. -/
theorem mainProcess_full (existing : Option FileContent)
    (fieldnames : List String) (rows : List Row)
    (call : String → Except ApiFailure String) (h : rows ≠ []) :
    mainProcess false existing fieldnames rows call =
      ⟨.ok (), some (.withHeader (output_fields fieldnames)
          (rows.map (process_pure call))),
        List.range' 1 rows.length, (loopGo call 0 [] 1 rows).callsLog⟩ := by
  obtain ⟨ho, hp⟩ := loopGo_spec call 0 rows [] 1 (cacheGood_nil call)
  rw [enumFrom_filter_all 0 rows 1 (by omega)] at ho hp
  unfold mainProcess
  rw [if_neg h]
  simp only []
  congr 1
  · rw [ho, enumFrom_map_over_snd]
  · rw [hp, enumFrom_map_fst]

/-- A resume run on an output file holding the first `K` records of the
full run appends exactly the records `K+1 .. N` of the full run (so the
final file equals the full run's) and processes indices `K+1 .. N`. -/
theorem mainProcess_resume (fieldnames : List String) (rows : List Row)
    (call : String → Except ApiFailure String) (prefixRows : List Row)
    (h : rows ≠ []) (hK : prefixRows.length ≤ rows.length) :
    mainProcess true (some (.withHeader (output_fields fieldnames) prefixRows))
        fieldnames rows call =
      ⟨.ok (), some (.withHeader (output_fields fieldnames)
          (prefixRows ++ (rows.drop prefixRows.length).map (process_pure call))),
        List.range' (prefixRows.length + 1) (rows.length - prefixRows.length),
        (loopGo call prefixRows.length [] 1 rows).callsLog⟩ := by
  set K := prefixRows.length with hKdef
  unfold mainProcess
  rw [if_neg h]
  simp only [read_existing_output]
  rw [if_pos (output_fields_ne_nil fieldnames), if_neg (by simp)]
  by_cases hfull : K ≥ rows.length
  · have hKN : K = rows.length := by omega
    rw [if_pos hfull]
    have hloop := loopGo_all_skip call K rows [] 1 (by omega)
    rw [hloop]
    simp only []
    congr 2
    · rw [hKN, List.drop_length]
      simp
    · rw [hKN]
      simp
  · rw [if_neg hfull]
    obtain ⟨ho, hp⟩ := loopGo_spec call K rows [] 1 (cacheGood_nil call)
    rw [enumFrom_filter_drop K rows 1 (by omega)] at ho hp
    simp only [Nat.add_sub_cancel] at ho hp
    congr 1
    · rw [ho, enumFrom_map_over_snd]
    · rw [hp, enumFrom_map_fst, List.length_drop]

/-- Unfolding `List.lookup` over a cons cell (strings as keys). -/
theorem lookup_triple_cons (k k2 : String) (v : UrlTriple)
    (l : List (String × UrlTriple)) :
    List.lookup k ((k2, v) :: l) = if k = k2 then some v else List.lookup k l := by
  by_cases h : k = k2
  · have hb : (k == k2) = true := by simp [h]
    simp only [List.lookup, hb, if_pos h]
  · have hb : (k == k2) = false := by simp [h]
    simp only [List.lookup, hb, if_neg h]

/-- How often the loop calls the API for a given context whose (unique,
deterministic) call succeeds: never when cached, once when some unskipped
row derives it, never otherwise. -/
theorem loopGo_count (call : String → Except ApiFailure String) (pr : Nat)
    (ctx text : String) (trip : UrlTriple) (hctx : ctx ≠ "")
    (hok : call (promptOf ctx) = .ok text)
    (hcomb : combine_urls_from_response text = .ok trip) :
    ∀ (items : List Row) (cache : List (String × UrlTriple)) (idx : Nat),
      CacheGood call cache →
      (loopGo call pr cache idx items).callsLog.count (promptOf ctx) =
        if (List.lookup ctx cache).isSome then 0
        else if (enumFrom idx items).any
            (fun p => decide (pr < p.1) && decide (build_context 240 p.2 = ctx))
          then 1 else 0 := by
  intro items
  induction items with
  | nil =>
    intro cache idx _
    rw [loopGo_nil]
    show List.count (promptOf ctx) [] = _
    simp only [List.count_nil, enumFrom, List.any_nil]
    by_cases hs : (List.lookup ctx cache).isSome <;> simp [hs]
  | cons row rest ih =>
    intro cache idx hcg
    by_cases hskip : idx ≤ pr
    · have hnot : ¬ pr < idx := by omega
      rw [loopGo_cons_skip call pr cache idx row rest hskip]
      have hhead : (decide (pr < idx) && decide (build_context 240 row = ctx)) =
          false := by simp [hnot]
      simp only [enumFrom, List.any_cons, hhead, Bool.false_or]
      exact ih cache (idx + 1) hcg
    · have hlt : pr < idx := by omega
      by_cases hempty : build_context 240 row = ""
      · rw [loopGo_cons_empty call pr cache idx row rest hskip hempty]
        show (loopGo call pr cache (idx + 1) rest).callsLog.count (promptOf ctx) = _
        have hne : (build_context 240 row = ctx) = False := by
          simp only [eq_iff_iff, iff_false]
          rw [hempty]
          exact fun hc => hctx hc.symm
        have hhead : (decide (pr < idx) && decide (build_context 240 row = ctx)) =
            false := by simp [hne]
        simp only [enumFrom, List.any_cons, hhead, Bool.false_or]
        exact ih cache (idx + 1) hcg
      · rcases hlook : List.lookup (build_context 240 row) cache with _ | ⟨⟨t, tr, g⟩⟩
        · rcases hcall : call (promptOf (build_context 240 row)) with e | text2
          · -- the call for this row's context fails: that context is not ctx
            have hne : build_context 240 row ≠ ctx := by
              intro hc
              rw [hc, hok] at hcall
              exact absurd hcall (by simp)
            rw [loopGo_cons_callerr call pr cache idx row rest e hskip hempty hlook
              hcall]
            show List.count (promptOf ctx)
              (promptOf (build_context 240 row) ::
                (loopGo call pr cache (idx + 1) rest).callsLog) = _
            have hpne : (promptOf (build_context 240 row) == promptOf ctx) =
                false := by
              simp only [beq_eq_false_iff_ne, ne_eq]
              intro hc
              exact hne (promptOf_inj hc)
            rw [List.count_cons]
            simp only [hpne, Bool.false_eq_true, if_false]
            have hhead : (decide (pr < idx) &&
                decide (build_context 240 row = ctx)) = false := by simp [hne]
            simp only [enumFrom, List.any_cons, hhead, Bool.false_or, Nat.add_zero]
            exact ih cache (idx + 1) hcg
          · rcases hcomb2 : combine_urls_from_response text2 with e | ⟨⟨t, tr, g⟩⟩
            · -- combination fails for this row's context: again not ctx
              have hne : build_context 240 row ≠ ctx := by
                intro hc
                rw [hc, hok] at hcall
                have : text2 = text := by
                  injection hcall.symm
                rw [this, hcomb] at hcomb2
                exact absurd hcomb2 (by simp)
              rw [loopGo_cons_comberr call pr cache idx row rest text2 e hskip
                hempty hlook hcall hcomb2]
              show List.count (promptOf ctx)
                (promptOf (build_context 240 row) ::
                  (loopGo call pr cache (idx + 1) rest).callsLog) = _
              have hpne : (promptOf (build_context 240 row) == promptOf ctx) =
                  false := by
                simp only [beq_eq_false_iff_ne, ne_eq]
                intro hc
                exact hne (promptOf_inj hc)
              rw [List.count_cons]
              simp only [hpne, Bool.false_eq_true, if_false]
              have hhead : (decide (pr < idx) &&
                  decide (build_context 240 row = ctx)) = false := by simp [hne]
              simp only [enumFrom, List.any_cons, hhead, Bool.false_or, Nat.add_zero]
              exact ih cache (idx + 1) hcg
            · rw [loopGo_cons_ok call pr cache idx row rest text2 t tr g hskip
                hempty hlook hcall hcomb2]
              have hcg2 := cacheGood_cons hcg hcall hcomb2
              by_cases hceq : build_context 240 row = ctx
              · -- this row triggers the one call for ctx; afterwards it is cached
                show List.count (promptOf ctx)
                  (promptOf (build_context 240 row) ::
                    (loopGo call pr
                      ((build_context 240 row, (t, tr, g)) :: cache)
                      (idx + 1) rest).callsLog) = _
                have hs2 : (List.lookup ctx
                    ((build_context 240 row, (t, tr, g)) :: cache)).isSome = true := by
                  rw [lookup_triple_cons, if_pos hceq.symm]
                  rfl
                have hrec := ih ((build_context 240 row, (t, tr, g)) :: cache)
                  (idx + 1) hcg2
                rw [List.count_cons, hrec, if_pos hs2]
                have hpe : (promptOf (build_context 240 row) == promptOf ctx) =
                    true := by
                  rw [hceq]
                  simp
                simp only [hpe, if_true, Nat.zero_add]
                have hs0 : (List.lookup ctx cache).isSome = false := by
                  rw [← hceq, hlook]
                  rfl
                have hhead : (decide (pr < idx) &&
                    decide (build_context 240 row = ctx)) = true := by
                  simp [hlt, hceq]
                simp [hs0, hhead, enumFrom]
              · show List.count (promptOf ctx)
                  (promptOf (build_context 240 row) ::
                    (loopGo call pr
                      ((build_context 240 row, (t, tr, g)) :: cache)
                      (idx + 1) rest).callsLog) = _
                have hpne : (promptOf (build_context 240 row) == promptOf ctx) =
                    false := by
                  simp only [beq_eq_false_iff_ne, ne_eq]
                  intro hc
                  exact hceq (promptOf_inj hc)
                have hlcons : List.lookup ctx
                    ((build_context 240 row, (t, tr, g)) :: cache) =
                    List.lookup ctx cache := by
                  rw [lookup_triple_cons,
                    if_neg (fun hc => hceq hc.symm)]
                have hrec := ih ((build_context 240 row, (t, tr, g)) :: cache)
                  (idx + 1) hcg2
                rw [List.count_cons, hrec, hlcons]
                simp only [hpne, Bool.false_eq_true, if_false, Nat.add_zero]
                have hhead : (decide (pr < idx) &&
                    decide (build_context 240 row = ctx)) = false := by simp [hceq]
                simp only [enumFrom, List.any_cons, hhead, Bool.false_or]
        · -- cache hit for this row's context
          rw [loopGo_cons_hit call pr cache idx row rest t tr g hskip hempty hlook]
          show (loopGo call pr cache (idx + 1) rest).callsLog.count (promptOf ctx) = _
          by_cases hceq : build_context 240 row = ctx
          · have hs : (List.lookup ctx cache).isSome = true := by
              rw [← hceq, hlook]
              rfl
            rw [ih cache (idx + 1) hcg, if_pos hs, if_pos hs]
          · have hhead : (decide (pr < idx) &&
                decide (build_context 240 row = ctx)) = false := by simp [hceq]
            simp only [enumFrom, List.any_cons, hhead, Bool.false_or]
            exact ih cache (idx + 1) hcg
/-! ## Classifier invariants -/

theorem contains_cons_self (n : String) (seen : List String) :
    ((n :: seen).contains n) = true := by
  simp [List.contains_cons]

theorem contains_of_contains_cons {u n : String} {seen : List String}
    (h : ((n :: seen).contains u) = false) : (seen.contains u) = false := by
  simp only [List.contains_cons, Bool.or_eq_false_iff] at h
  exact h.2

/-- Deduplication and order invariant of the API variant's classifier:
no normalized URL appears twice across the three categories combined, no
category member was in `seen`, and each category is a subsequence of the
normalized input. -/
theorem classifyGo_props : ∀ (urls seen : List String),
    (((classifyGo seen urls).1 ++ (classifyGo seen urls).2.1 ++
        (classifyGo seen urls).2.2).Nodup) ∧
    (∀ u ∈ (classifyGo seen urls).1 ++ (classifyGo seen urls).2.1 ++
        (classifyGo seen urls).2.2, (seen.contains u) = false) ∧
    (classifyGo seen urls).1.Sublist (urls.map normalize_url) ∧
    (classifyGo seen urls).2.1.Sublist (urls.map normalize_url) ∧
    (classifyGo seen urls).2.2.Sublist (urls.map normalize_url) := by
  intro urls
  induction urls with
  | nil => intro seen; simp [classifyGo]
  | cons raw rest ih =>
    intro seen
    simp only [List.map_cons]
    by_cases h1 : (decide (normalize_url raw = "") ||
        seen.contains (normalize_url raw)) = true
    · have hstep : classifyGo seen (raw :: rest) = classifyGo seen rest := by
        simp only [classifyGo, h1, if_true]
      rw [hstep]
      obtain ⟨hnd, hmem, hs1, hs2, hs3⟩ := ih seen
      exact ⟨hnd, hmem, List.Sublist.cons _ hs1, List.Sublist.cons _ hs2,
        List.Sublist.cons _ hs3⟩
    · by_cases h2 : domain_from_url (normalize_url raw) = ""
      · have hstep : classifyGo seen (raw :: rest) = classifyGo seen rest := by
          simp only [classifyGo, h1, Bool.false_eq_true, if_false]
          rw [if_pos h2]
        rw [hstep]
        obtain ⟨hnd, hmem, hs1, hs2, hs3⟩ := ih seen
        exact ⟨hnd, hmem, List.Sublist.cons _ hs1, List.Sublist.cons _ hs2,
          List.Sublist.cons _ hs3⟩
      · have hcontains : (seen.contains (normalize_url raw)) = false := by
          simp only [Bool.or_eq_true, decide_eq_true_eq, not_or] at h1
          simpa using h1.2
        obtain ⟨hnd, hmem, hs1, hs2, hs3⟩ := ih (normalize_url raw :: seen)
        rcases hres : classifyGo (normalize_url raw :: seen) rest with ⟨t, r, g⟩
        rw [hres] at hnd hmem hs1 hs2 hs3
        simp only at hnd hmem hs1 hs2 hs3
        have hnotmem : normalize_url raw ∉ t ++ r ++ g := by
          intro hin
          have := hmem _ hin
          rw [contains_cons_self] at this
          exact absurd this (by simp)
        have hmem2 : ∀ u ∈ t ++ r ++ g, (seen.contains u) = false :=
          fun u hu => contains_of_contains_cons (hmem u hu)
        by_cases h3 : is_tse_domain (domain_from_url (normalize_url raw)) = true
        · have hstep : classifyGo seen (raw :: rest) =
              (normalize_url raw :: t, r, g) := by
            simp only [classifyGo, h1, Bool.false_eq_true, if_false]
            rw [if_neg h2, if_pos h3, hres]
          rw [hstep]
          simp only [List.cons_append]
          refine ⟨List.nodup_cons.mpr ⟨hnotmem, hnd⟩, ?_, ?_, ?_, ?_⟩
          · intro u hu
            rcases List.mem_cons.mp hu with hu | hu
            · subst hu; exact hcontains
            · exact hmem2 u hu
          · exact List.Sublist.cons₂ _ hs1
          · exact List.Sublist.cons _ hs2
          · exact List.Sublist.cons _ hs3
        · by_cases h4 : is_tre_domain (domain_from_url (normalize_url raw)) = true
          · have hstep : classifyGo seen (raw :: rest) =
                (t, normalize_url raw :: r, g) := by
              simp only [classifyGo, h1, Bool.false_eq_true, if_false]
              rw [if_neg h2, if_neg h3, if_pos h4, hres]
            rw [hstep]
            simp only
            have hperm : List.Perm (t ++ (normalize_url raw :: r) ++ g)
                (normalize_url raw :: (t ++ r ++ g)) := by
              have he1 : t ++ (normalize_url raw :: r) ++ g =
                  t ++ (normalize_url raw :: (r ++ g)) := by
                simp [List.append_assoc]
              have he2 : normalize_url raw :: (t ++ (r ++ g)) =
                  normalize_url raw :: (t ++ r ++ g) := by
                simp [List.append_assoc]
              rw [he1, ← he2]
              exact List.perm_middle
            refine ⟨hperm.nodup_iff.mpr (List.nodup_cons.mpr ⟨hnotmem, hnd⟩),
              ?_, ?_, ?_, ?_⟩
            · intro u hu
              have hu2 : u ∈ normalize_url raw :: (t ++ r ++ g) :=
                hperm.mem_iff.mp hu
              rcases List.mem_cons.mp hu2 with hu3 | hu3
              · subst hu3; exact hcontains
              · exact hmem2 u hu3
            · exact List.Sublist.cons _ hs1
            · exact List.Sublist.cons₂ _ hs2
            · exact List.Sublist.cons _ hs3
          · by_cases h5 : is_general_domain (domain_from_url (normalize_url raw)) = true
            · have hstep : classifyGo seen (raw :: rest) =
                  (t, r, normalize_url raw :: g) := by
                simp only [classifyGo, h1, Bool.false_eq_true, if_false]
                rw [if_neg h2, if_neg h3, if_neg h4, if_pos h5, hres]
              rw [hstep]
              simp only
              have hperm : List.Perm (t ++ r ++ (normalize_url raw :: g))
                  (normalize_url raw :: (t ++ r ++ g)) := List.perm_middle
              refine ⟨hperm.nodup_iff.mpr (List.nodup_cons.mpr ⟨hnotmem, hnd⟩),
                ?_, ?_, ?_, ?_⟩
              · intro u hu
                have hu2 : u ∈ normalize_url raw :: (t ++ r ++ g) :=
                  hperm.mem_iff.mp hu
                rcases List.mem_cons.mp hu2 with hu3 | hu3
                · subst hu3; exact hcontains
                · exact hmem2 u hu3
              · exact List.Sublist.cons _ hs1
              · exact List.Sublist.cons _ hs2
              · exact List.Sublist.cons₂ _ hs3
            · have hstep : classifyGo seen (raw :: rest) = classifyGo seen rest := by
                simp only [classifyGo, h1, Bool.false_eq_true, if_false]
                rw [if_neg h2, if_neg h3, if_neg h4, if_neg h5]
              rw [hstep]
              obtain ⟨hnd0, hmem0, hs10, hs20, hs30⟩ := ih seen
              exact ⟨hnd0, hmem0, List.Sublist.cons _ hs10,
                List.Sublist.cons _ hs20, List.Sublist.cons _ hs30⟩

/-- The same deduplication and order invariant for the WEB variant's
classifier. -/
theorem webClassifyGo_props : ∀ (urls seen : List String),
    (((webClassifyGo seen urls).1 ++ (webClassifyGo seen urls).2.1 ++
        (webClassifyGo seen urls).2.2).Nodup) ∧
    (∀ u ∈ (webClassifyGo seen urls).1 ++ (webClassifyGo seen urls).2.1 ++
        (webClassifyGo seen urls).2.2, (seen.contains u) = false) ∧
    (webClassifyGo seen urls).1.Sublist (urls.map normalize_url) ∧
    (webClassifyGo seen urls).2.1.Sublist (urls.map normalize_url) ∧
    (webClassifyGo seen urls).2.2.Sublist (urls.map normalize_url) := by
  intro urls
  induction urls with
  | nil => intro seen; simp [webClassifyGo]
  | cons raw rest ih =>
    intro seen
    simp only [List.map_cons]
    by_cases h1 : (decide (normalize_url raw = "") ||
        seen.contains (normalize_url raw)) = true
    · have hstep : webClassifyGo seen (raw :: rest) = webClassifyGo seen rest := by
        simp only [webClassifyGo, h1, if_true]
      rw [hstep]
      obtain ⟨hnd, hmem, hs1, hs2, hs3⟩ := ih seen
      exact ⟨hnd, hmem, List.Sublist.cons _ hs1, List.Sublist.cons _ hs2,
        List.Sublist.cons _ hs3⟩
    · by_cases h2 : domain_from_url (normalize_url raw) = ""
      · have hstep : webClassifyGo seen (raw :: rest) = webClassifyGo seen rest := by
          simp only [webClassifyGo, h1, Bool.false_eq_true, if_false]
          rw [if_pos h2]
        rw [hstep]
        obtain ⟨hnd, hmem, hs1, hs2, hs3⟩ := ih seen
        exact ⟨hnd, hmem, List.Sublist.cons _ hs1, List.Sublist.cons _ hs2,
          List.Sublist.cons _ hs3⟩
      · have hcontains : (seen.contains (normalize_url raw)) = false := by
          simp only [Bool.or_eq_true, decide_eq_true_eq, not_or] at h1
          simpa using h1.2
        obtain ⟨hnd, hmem, hs1, hs2, hs3⟩ := ih (normalize_url raw :: seen)
        rcases hres : webClassifyGo (normalize_url raw :: seen) rest with ⟨t, r, g⟩
        rw [hres] at hnd hmem hs1 hs2 hs3
        simp only at hnd hmem hs1 hs2 hs3
        have hnotmem : normalize_url raw ∉ t ++ r ++ g := by
          intro hin
          have := hmem _ hin
          rw [contains_cons_self] at this
          exact absurd this (by simp)
        have hmem2 : ∀ u ∈ t ++ r ++ g, (seen.contains u) = false :=
          fun u hu => contains_of_contains_cons (hmem u hu)
        have hmemgoal : ∀ u ∈ normalize_url raw :: (t ++ r ++ g),
            (seen.contains u) = false := by
          intro u hu
          rcases List.mem_cons.mp hu with hu2 | hu2
          · subst hu2; exact hcontains
          · exact hmem2 u hu2
        by_cases h3 : is_tse_domain (domain_from_url (normalize_url raw)) = true
        · have hstep : webClassifyGo seen (raw :: rest) =
              (normalize_url raw :: t, r, g) := by
            simp only [webClassifyGo, h1, Bool.false_eq_true, if_false]
            rw [if_neg h2, if_pos h3, hres]
          rw [hstep]
          simp only [List.cons_append]
          refine ⟨List.nodup_cons.mpr ⟨hnotmem, hnd⟩, hmemgoal,
            List.Sublist.cons₂ _ hs1, List.Sublist.cons _ hs2,
            List.Sublist.cons _ hs3⟩
        · by_cases h4 : is_tre_domain (domain_from_url (normalize_url raw)) = true
          · have hstep : webClassifyGo seen (raw :: rest) =
                (t, normalize_url raw :: r, g) := by
              simp only [webClassifyGo, h1, Bool.false_eq_true, if_false]
              rw [if_neg h2, if_neg h3, if_pos h4, hres]
            rw [hstep]
            simp only
            have hperm : List.Perm (t ++ (normalize_url raw :: r) ++ g)
                (normalize_url raw :: (t ++ r ++ g)) := by
              have he1 : t ++ (normalize_url raw :: r) ++ g =
                  t ++ (normalize_url raw :: (r ++ g)) := by
                simp [List.append_assoc]
              have he2 : normalize_url raw :: (t ++ (r ++ g)) =
                  normalize_url raw :: (t ++ r ++ g) := by
                simp [List.append_assoc]
              rw [he1, ← he2]
              exact List.perm_middle
            refine ⟨hperm.nodup_iff.mpr (List.nodup_cons.mpr ⟨hnotmem, hnd⟩),
              fun u hu => hmemgoal u (hperm.mem_iff.mp hu),
              List.Sublist.cons _ hs1, List.Sublist.cons₂ _ hs2,
              List.Sublist.cons _ hs3⟩
          · by_cases h5 : web_general_suffix (domain_from_url (normalize_url raw)) = true
            · have hstep : webClassifyGo seen (raw :: rest) =
                  (t, r, normalize_url raw :: g) := by
                simp only [webClassifyGo, h1, Bool.false_eq_true, if_false]
                rw [if_neg h2, if_neg h3, if_neg h4, if_pos h5, hres]
              rw [hstep]
              simp only
              have hperm : List.Perm (t ++ r ++ (normalize_url raw :: g))
                  (normalize_url raw :: (t ++ r ++ g)) := List.perm_middle
              exact ⟨hperm.nodup_iff.mpr (List.nodup_cons.mpr ⟨hnotmem, hnd⟩),
                fun u hu => hmemgoal u (hperm.mem_iff.mp hu),
                List.Sublist.cons _ hs1, List.Sublist.cons _ hs2,
                List.Sublist.cons₂ _ hs3⟩
            · by_cases h6 : (!(decide (List.IsInfix "jus.br".data
                  (domain_from_url (normalize_url raw)).data))) = true
              · have hstep : webClassifyGo seen (raw :: rest) =
                    (t, r, normalize_url raw :: g) := by
                  simp only [webClassifyGo, h1, Bool.false_eq_true, if_false]
                  rw [if_neg h2, if_neg h3, if_neg h4, if_neg h5, if_pos h6, hres]
                rw [hstep]
                simp only
                have hperm : List.Perm (t ++ r ++ (normalize_url raw :: g))
                    (normalize_url raw :: (t ++ r ++ g)) := List.perm_middle
                exact ⟨hperm.nodup_iff.mpr (List.nodup_cons.mpr ⟨hnotmem, hnd⟩),
                  fun u hu => hmemgoal u (hperm.mem_iff.mp hu),
                  List.Sublist.cons _ hs1, List.Sublist.cons _ hs2,
                  List.Sublist.cons₂ _ hs3⟩
              · have hstep : webClassifyGo seen (raw :: rest) = (t, r, g) := by
                  simp only [webClassifyGo, h1, Bool.false_eq_true, if_false]
                  rw [if_neg h2, if_neg h3, if_neg h4, if_neg h5, if_neg h6, hres]
                rw [hstep]
                exact ⟨hnd, hmem2, List.Sublist.cons _ hs1,
                  List.Sublist.cons _ hs2, List.Sublist.cons _ hs3⟩

/-- In the API variant, a URL lands in the general bucket only when its
(normalized, lower-cased) host passes `_is_general_domain`. -/
theorem classifyGo_geral_general : ∀ (urls seen : List String) (u : String),
    u ∈ (classifyGo seen urls).2.2 →
    is_general_domain (domain_from_url u) = true := by
  intro urls
  induction urls with
  | nil => intro seen u h; simp [classifyGo] at h
  | cons raw rest ih =>
    intro seen u hu
    by_cases h1 : (decide (normalize_url raw = "") ||
        seen.contains (normalize_url raw)) = true
    · have hstep : classifyGo seen (raw :: rest) = classifyGo seen rest := by
        simp only [classifyGo, h1, if_true]
      rw [hstep] at hu
      exact ih seen u hu
    · by_cases h2 : domain_from_url (normalize_url raw) = ""
      · have hstep : classifyGo seen (raw :: rest) = classifyGo seen rest := by
          simp only [classifyGo, h1, Bool.false_eq_true, if_false]
          rw [if_pos h2]
        rw [hstep] at hu
        exact ih seen u hu
      · rcases hres : classifyGo (normalize_url raw :: seen) rest with ⟨t, r, g⟩
        by_cases h3 : is_tse_domain (domain_from_url (normalize_url raw)) = true
        · have hstep : classifyGo seen (raw :: rest) =
              (normalize_url raw :: t, r, g) := by
            simp only [classifyGo, h1, Bool.false_eq_true, if_false]
            rw [if_neg h2, if_pos h3, hres]
          rw [hstep] at hu
          simp only at hu
          have := ih (normalize_url raw :: seen) u
          rw [hres] at this
          exact this hu
        · by_cases h4 : is_tre_domain (domain_from_url (normalize_url raw)) = true
          · have hstep : classifyGo seen (raw :: rest) =
                (t, normalize_url raw :: r, g) := by
              simp only [classifyGo, h1, Bool.false_eq_true, if_false]
              rw [if_neg h2, if_neg h3, if_pos h4, hres]
            rw [hstep] at hu
            simp only at hu
            have := ih (normalize_url raw :: seen) u
            rw [hres] at this
            exact this hu
          · by_cases h5 : is_general_domain (domain_from_url (normalize_url raw)) = true
            · have hstep : classifyGo seen (raw :: rest) =
                  (t, r, normalize_url raw :: g) := by
                simp only [classifyGo, h1, Bool.false_eq_true, if_false]
                rw [if_neg h2, if_neg h3, if_neg h4, if_pos h5, hres]
              rw [hstep] at hu
              simp only at hu
              rcases List.mem_cons.mp hu with hu2 | hu2
              · subst hu2; exact h5
              · have := ih (normalize_url raw :: seen) u
                rw [hres] at this
                exact this hu2
            · have hstep : classifyGo seen (raw :: rest) = classifyGo seen rest := by
                simp only [classifyGo, h1, Bool.false_eq_true, if_false]
                rw [if_neg h2, if_neg h3, if_neg h4, if_neg h5]
              rw [hstep] at hu
              exact ih seen u hu

/-! ## WEB-loop helpers -/

theorem rowGet_filter_keep (p : String → Bool) (k : String) (hk : p k = false) :
    ∀ (row : Row), rowGet (row.filter (fun kv => !p kv.1)) k = rowGet row k := by
  intro row
  induction row with
  | nil => rfl
  | cons kv t ih =>
    obtain ⟨k2, v2⟩ := kv
    by_cases h2 : p k2 = true
    · have hne : k ≠ k2 := by
        intro hc
        rw [hc, h2] at hk
        exact absurd hk (by simp)
      rw [List.filter_cons]
      simp only [h2, Bool.not_true, Bool.false_eq_true, if_false]
      rw [ih, lookupRow_cons, if_neg hne]
    · have h2f : p k2 = false := by
        revert h2
        cases p k2 <;> simp
      rw [List.filter_cons]
      simp only [h2f, Bool.not_false, if_true]
      rw [lookupRow_cons, lookupRow_cons]
      by_cases hkk : k = k2
      · rw [if_pos hkk, if_pos hkk]
      · rw [if_neg hkk, if_neg hkk]
        exact ih

/-- A key shorter than 14 characters is never one of the numbered
overflow columns. -/
theorem short_ne_geralNum {k : String} (hk : k.length < 14) (j : Nat) :
    k ≠ "noticia_geral_" ++ toString j := by
  intro h
  have hl := congrArg String.length h
  rw [String.length_append] at hl
  have h14 : ("noticia_geral_" : String).length = 14 := rfl
  omega

theorem rowGet_addGeralCols (k : String)
    (hk : ∀ j : Nat, k ≠ "noticia_geral_" ++ toString j) :
    ∀ (links : List String) (row : Row) (i : Nat),
      rowGet (addGeralCols row i links).1 k = rowGet row k := by
  intro links
  induction links with
  | nil => intro row i; rfl
  | cons l ls ih =>
    intro row i
    show rowGet (addGeralCols (setCol row ("noticia_geral_" ++ toString i) l)
      (i + 1) ls).1 k = rowGet row k
    rw [ih (setCol row ("noticia_geral_" ++ toString i) l) (i + 1),
      rowGet_setCol_other _ _ _ _ (hk i)]

/-- The news values a successfully processed WEB record receives, as a
function of the context alone. -/
def webNews (call : String → String) (ctx : String) : String × String × List String :=
  if ctx = "" then ("", "", [])
  else
    match process_response_text (call (webPromptOf ctx)) with
    | .ok v => v
    | .error _ => ("", "", [])

theorem webRowPure_news (call : String → String) (row : Row)
    (hwf : build_context 300 row ≠ "" →
      ∃ v, process_response_text (call (webPromptOf (build_context 300 row))) =
        .ok v) :
    rowGet (webRowPure call row) "noticia_TSE" =
      some (webNews call (build_context 300 row)).1 ∧
    rowGet (webRowPure call row) "noticia_TRE" =
      some (webNews call (build_context 300 row)).2.1 ∧
    rowGet (webRowPure call row) "noticia_geral" =
      some ((webNews call (build_context 300 row)).2.2.headD "") := by
  have main : ∀ (ts tr : String) (gl : List String),
      rowGet ((apply_geral_links
        (setCol (setCol row "noticia_TSE" ts) "noticia_TRE" tr) gl).1)
          "noticia_TSE" = some ts ∧
      rowGet ((apply_geral_links
        (setCol (setCol row "noticia_TSE" ts) "noticia_TRE" tr) gl).1)
          "noticia_TRE" = some tr ∧
      rowGet ((apply_geral_links
        (setCol (setCol row "noticia_TSE" ts) "noticia_TRE" tr) gl).1)
          "noticia_geral" = some (gl.headD "") := by
    intro ts tr gl
    unfold apply_geral_links
    refine ⟨?_, ?_, ?_⟩
    · rw [rowGet_addGeralCols _ (fun j => short_ne_geralNum (by decide) j),
        rowGet_setCol_other _ _ _ _ (by decide),
        rowGet_filter_keep _ _ (by decide),
        rowGet_setCol_other _ _ _ _ (by decide), rowGet_setCol_same]
    · rw [rowGet_addGeralCols _ (fun j => short_ne_geralNum (by decide) j),
        rowGet_setCol_other _ _ _ _ (by decide),
        rowGet_filter_keep _ _ (by decide), rowGet_setCol_same]
    · rw [rowGet_addGeralCols _ (fun j => short_ne_geralNum (by decide) j),
        rowGet_setCol_same]
  unfold webRowPure webNews
  by_cases h : build_context 300 row = ""
  · simp only [h, if_true]
    exact main "" "" []
  · obtain ⟨⟨ts, tr, gl⟩, hv⟩ := hwf h
    simp only [h, if_false, hv]
    exact main ts tr gl

/-- Under well-formed responses the WEB loop writes one record per row and
performs exactly one call per row with non-blank context — there is no
cache. -/
theorem webLoopGo_spec (call : String → String) :
    ∀ (rows : List Row) (idx : Nat),
      (∀ row ∈ rows, build_context 300 row ≠ "" →
        ∃ v, process_response_text (call (webPromptOf (build_context 300 row))) =
          .ok v) →
      webLoopGo call 0 idx rows =
        (rows.map (webRowPure call),
         (rows.filter (fun r => !(decide (build_context 300 r = "")))).map
           (fun r => webPromptOf (build_context 300 r)),
         none) := by
  intro rows
  induction rows with
  | nil => intro idx _; rfl
  | cons row rest ih =>
    intro idx hwf
    have hwfr := hwf row (List.mem_cons_self row rest)
    have hwfrest : ∀ r ∈ rest, build_context 300 r ≠ "" →
        ∃ v, process_response_text (call (webPromptOf (build_context 300 r))) =
          .ok v :=
      fun r hr => hwf r (List.mem_cons_of_mem row hr)
    by_cases h : build_context 300 row = ""
    · have hstep : webLoopGo call 0 idx (row :: rest) =
          ((apply_geral_links
            (setCol (setCol row "noticia_TSE" "") "noticia_TRE" "") []).1 ::
              (webLoopGo call 0 (idx + 1) rest).1,
            (webLoopGo call 0 (idx + 1) rest).2.1,
            (webLoopGo call 0 (idx + 1) rest).2.2) := by
        simp only [webLoopGo, Nat.not_lt_zero, if_false, h, if_true]
      rw [hstep, ih (idx + 1) hwfrest]
      simp only [List.map_cons, List.filter_cons, h]
      have hrow : webRowPure call row = (apply_geral_links
          (setCol (setCol row "noticia_TSE" "") "noticia_TRE" "") []).1 := by
        unfold webRowPure
        simp only [h, if_true]
      rw [hrow]
      simp
    · obtain ⟨⟨ts, tr, gl⟩, hv⟩ := hwfr h
      have hstep : webLoopGo call 0 idx (row :: rest) =
          ((apply_geral_links
            (setCol (setCol row "noticia_TSE" ts) "noticia_TRE" tr) gl).1 ::
              (webLoopGo call 0 (idx + 1) rest).1,
            webPromptOf (build_context 300 row) ::
              (webLoopGo call 0 (idx + 1) rest).2.1,
            (webLoopGo call 0 (idx + 1) rest).2.2) := by
        simp only [webLoopGo, Nat.not_lt_zero, if_false, h, hv, if_true]
      rw [hstep, ih (idx + 1) hwfrest]
      simp only [List.map_cons, List.filter_cons, h]
      have hrow : webRowPure call row = (apply_geral_links
          (setCol (setCol row "noticia_TSE" ts) "noticia_TRE" tr) gl).1 := by
        unfold webRowPure
        simp only [h, if_false, hv]
      rw [hrow]
      simp

/-- The news values of a processed API-variant record, as a function of
the context alone. -/
def newsOf (call : String → Except ApiFailure String) (ctx : String) :
    String × String × String :=
  if ctx = "" then ("", "", "")
  else
    match call (promptOf ctx) with
    | .ok text =>
      match combine_urls_from_response text with
      | .ok (t, tr, g) => (joinComma t, joinComma tr, joinComma g)
      | .error _ => ("", "", "")
    | .error _ => ("", "", "")

theorem news_process_pure (call : String → Except ApiFailure String) (row : Row) :
    rowGet (process_pure call row) "noticia_TSE" =
      some (newsOf call (build_context 240 row)).1 ∧
    rowGet (process_pure call row) "noticia_TRE" =
      some (newsOf call (build_context 240 row)).2.1 ∧
    rowGet (process_pure call row) "noticia_geral" =
      some (newsOf call (build_context 240 row)).2.2 := by
  by_cases h : build_context 240 row = ""
  · rw [process_pure_empty call row h]
    have hn : newsOf call (build_context 240 row) = ("", "", "") := by
      simp only [newsOf, h, if_true]
    rw [hn]
    exact rowGet_news row "" "" ""
  · rcases hcall : call (promptOf (build_context 240 row)) with e | text
    · rw [process_pure_callerr call row e h hcall]
      have hn : newsOf call (build_context 240 row) = ("", "", "") := by
        simp only [newsOf, h, if_false, hcall]
      rw [hn]
      exact rowGet_news row "" "" ""
    · rcases hcomb : combine_urls_from_response text with e | ⟨⟨t, tr, g⟩⟩
      · rw [process_pure_comberr call row text e h hcall hcomb]
        have hn : newsOf call (build_context 240 row) = ("", "", "") := by
          simp only [newsOf, h, if_false, hcall, hcomb]
        rw [hn]
        exact rowGet_news row "" "" ""
      · rw [process_pure_ok call row text t tr g h hcall hcomb]
        have hn : newsOf call (build_context 240 row) =
            (joinComma t, joinComma tr, joinComma g) := by
          simp only [newsOf, h, if_false, hcall, hcomb]
        rw [hn]
        exact rowGet_news row (joinComma t) (joinComma tr) (joinComma g)

/-! ## Claim theorems -/

/-- Claim C5 (code bug): a permission-denied `ClientError` (HTTP 403) is
NOT propagated immediately by `_call_gemini_with_web_search`.  With
`max_retries = 3` and every attempt raising `ClientError(403)`, the
wrapper performs all 3 calls and 3 backoff sleeps and then raises
`RuntimeError` — contradicting the claim and the repository's own test
`test_403_fatal_logic`, which asserts one call and an escaping
`ClientError`. -/
theorem fatal_client_error_is_retried :
    callGemini (fun _ => .clientErr 403) 3 =
      ⟨.error (.runtime (some (.clientErr 403))), 3, 3⟩ := rfl

/-- Whether a parsed JSON value is a mapping. -/
def JValue.isObj : JValue → Bool
  | .obj _ => true
  | _ => false

/-- Claim C6 (code bug): `_extract_json` does not always return a mapping.
On the model text `[1, 2]` the direct JSON parse succeeds with an array,
which is returned unchecked — the function's own annotation
`-> Dict[str, object]` (and the claim) promise a mapping. -/
theorem extract_json_nonmapping :
    extract_json "[1, 2]" = JValue.arr [JValue.num "1", JValue.num "2"] ∧
    (extract_json "[1, 2]").isObj = false := ⟨rfl, rfl⟩

/-- Claim C8 (confirmed): any URL whose normalized host is the authority
domain `tse.jus.br` or a subdomain of it is classified Primary
(`noticia_TSE`) by both variants, regardless of scheme or `www.` prefix
(the hypothesis is stated on the normalized, lower-cased, `www.`-stripped
host, exactly as `_is_tse_domain` receives it). -/
theorem tse_domain_primary (url : String)
    (h : is_tse_domain (domain_from_url (normalize_url url)) = true) :
    classify_urls [url] = ([normalize_url url], [], []) ∧
    web_classify_urls [url] = ([normalize_url url], [], []) := by
  have hn : normalize_url url ≠ "" := by
    intro hc
    rw [hc] at h
    exact absurd h (by decide)
  have hd : domain_from_url (normalize_url url) ≠ "" := by
    intro hc
    rw [hc] at h
    exact absurd h (by decide)
  have h1 : (decide (normalize_url url = "") ||
      (List.contains [] (normalize_url url))) = false := by
    simp [hn]
  constructor
  · show classifyGo [] [url] = ([normalize_url url], [], [])
    simp only [classifyGo, h1, Bool.false_eq_true, if_false]
    rw [if_neg hd, if_pos h]
  · show webClassifyGo [] [url] = ([normalize_url url], [], [])
    simp only [webClassifyGo, h1, Bool.false_eq_true, if_false]
    rw [if_neg hd, if_pos h]

/-- Witness for C8: `www.tse.jus.br/noticias` (no scheme, `www.` prefix)
normalizes to host `tse.jus.br` and is classified Primary by both
variants. -/
theorem tse_domain_primary_witness :
    classify_urls ["www.tse.jus.br/noticias"] =
      (["https://www.tse.jus.br/noticias"], [], []) ∧
    web_classify_urls ["www.tse.jus.br/noticias"] =
      (["https://www.tse.jus.br/noticias"], [], []) :=
  tse_domain_primary "www.tse.jus.br/noticias" rfl

/-- Claim C10 (confirmed): a missing checkpoint file, an I/O error while
reading it, or invalid JSON contents all make `carregar_checkpoint`
return start index 0 and an empty accumulated-results list, without
raising. -/
theorem checkpoint_fallback_zero (fs : CheckpointFile)
    (h : fs = .absent ∨ fs = .ioError ∨
      ∃ s, fs = .content s ∧ jsonLoads s = none) :
    carregar_checkpoint fs = .ok (0, .arr []) := by
  rcases h with h | h | ⟨s, hfs, hp⟩
  · rw [h]
    rfl
  · rw [h]
    rfl
  · rw [hfs]
    simp only [carregar_checkpoint, hp]

/-- Witness for C10: contents `not json` are not valid JSON and the
loader restarts from zero. -/
theorem checkpoint_fallback_zero_witness :
    carregar_checkpoint (.content "not json") = .ok (0, .arr []) :=
  checkpoint_fallback_zero (.content "not json")
    (Or.inr (Or.inr ⟨"not json", rfl, rfl⟩))

/-- Counterexample for C9: two URLs whose hosts are equal up to letter
case (`TSE.jus.br` vs `tse.jus.br`) are BOTH kept by `_classify_urls` —
duplicate detection compares the exact normalized URL strings, not
case-normalized hosts, so the claimed case-insensitive host comparison
does not hold. -/
theorem dedup_case_sensitive_cex :
    domain_from_url "https://TSE.jus.br/a" = domain_from_url "https://tse.jus.br/a" ∧
    classify_urls ["https://TSE.jus.br/a", "https://tse.jus.br/a"] =
      (["https://TSE.jus.br/a", "https://tse.jus.br/a"], [], []) := ⟨rfl, rfl⟩

/-- Claim C9 (amended): in both variants each normalized URL appears at
most once across the three categories combined, and each category keeps
first-occurrence insertion order (it is a subsequence of the normalized
input); deduplication compares exact normalized URL strings
(case-sensitively). -/
theorem classified_set_dedup_order (urls : List String) :
    (((classify_urls urls).1 ++ (classify_urls urls).2.1 ++
        (classify_urls urls).2.2).Nodup ∧
      (classify_urls urls).1.Sublist (urls.map normalize_url) ∧
      (classify_urls urls).2.1.Sublist (urls.map normalize_url) ∧
      (classify_urls urls).2.2.Sublist (urls.map normalize_url)) ∧
    (((web_classify_urls urls).1 ++ (web_classify_urls urls).2.1 ++
        (web_classify_urls urls).2.2).Nodup ∧
      (web_classify_urls urls).1.Sublist (urls.map normalize_url) ∧
      (web_classify_urls urls).2.1.Sublist (urls.map normalize_url) ∧
      (web_classify_urls urls).2.2.Sublist (urls.map normalize_url)) := by
  obtain ⟨hnd, _, hs1, hs2, hs3⟩ := classifyGo_props urls []
  obtain ⟨hnd2, _, hs4, hs5, hs6⟩ := webClassifyGo_props urls []
  exact ⟨⟨hnd, hs1, hs2, hs3⟩, ⟨hnd2, hs4, hs5, hs6⟩⟩

/-- Counterexample for C3: in the WEB variant, `https://example.com` —
whose host matches no authority, regional or allow-list rule — is NOT
dropped: the final fallback classifies any host without the substring
`jus.br` as General. -/
theorem web_classifier_general_fallback_cex :
    is_tse_domain (domain_from_url (normalize_url "https://example.com")) = false ∧
    is_tre_domain (domain_from_url (normalize_url "https://example.com")) = false ∧
    is_general_domain (domain_from_url (normalize_url "https://example.com")) = false ∧
    web_general_suffix (domain_from_url (normalize_url "https://example.com")) = false ∧
    web_classify_urls ["https://example.com"] = ([], [], ["https://example.com"]) :=
  ⟨rfl, rfl, rfl, rfl, rfl⟩

/-- Claim C3 (amended): in the API variant a URL matching no rule is
dropped from all three categories and General membership requires an
allow-listed host; in the WEB variant the General test is a raw suffix
match and a URL matching no rule is dropped only when its host contains
the substring `jus.br` — otherwise it is classified General. -/
theorem classifier_reject_amended :
    (∀ url : String,
      is_tse_domain (domain_from_url (normalize_url url)) = false →
      is_tre_domain (domain_from_url (normalize_url url)) = false →
      is_general_domain (domain_from_url (normalize_url url)) = false →
      classify_urls [url] = ([], [], [])) ∧
    (∀ (urls : List String) (u : String), u ∈ (classify_urls urls).2.2 →
      is_general_domain (domain_from_url u) = true) ∧
    (∀ url : String,
      is_tse_domain (domain_from_url (normalize_url url)) = false →
      is_tre_domain (domain_from_url (normalize_url url)) = false →
      web_general_suffix (domain_from_url (normalize_url url)) = false →
      List.IsInfix "jus.br".data (domain_from_url (normalize_url url)).data →
      web_classify_urls [url] = ([], [], [])) ∧
    (∀ url : String, normalize_url url ≠ "" →
      domain_from_url (normalize_url url) ≠ "" →
      is_tse_domain (domain_from_url (normalize_url url)) = false →
      is_tre_domain (domain_from_url (normalize_url url)) = false →
      web_general_suffix (domain_from_url (normalize_url url)) = false →
      ¬ List.IsInfix "jus.br".data (domain_from_url (normalize_url url)).data →
      web_classify_urls [url] = ([], [], [normalize_url url])) := by
  refine ⟨?_, ?_, ?_, ?_⟩
  · intro url h3 h4 h5
    show classifyGo [] [url] = ([], [], [])
    by_cases hn : normalize_url url = ""
    · have h1 : (decide (normalize_url url = "") ||
          (List.contains [] (normalize_url url))) = true := by simp [hn]
      simp only [classifyGo, h1, if_true]
    · have h1 : (decide (normalize_url url = "") ||
          (List.contains [] (normalize_url url))) = false := by simp [hn]
      by_cases hd : domain_from_url (normalize_url url) = ""
      · simp only [classifyGo, h1, Bool.false_eq_true, if_false]
        rw [if_pos hd]
      · simp only [classifyGo, h1, Bool.false_eq_true, if_false]
        rw [if_neg hd, if_neg (by simp [h3]), if_neg (by simp [h4]),
          if_neg (by simp [h5])]
  · exact fun urls u hu => classifyGo_geral_general urls [] u hu
  · intro url h3 h4 h5 hinf
    show webClassifyGo [] [url] = ([], [], [])
    by_cases hn : normalize_url url = ""
    · have h1 : (decide (normalize_url url = "") ||
          (List.contains [] (normalize_url url))) = true := by simp [hn]
      simp only [webClassifyGo, h1, if_true]
    · have h1 : (decide (normalize_url url = "") ||
          (List.contains [] (normalize_url url))) = false := by simp [hn]
      by_cases hd : domain_from_url (normalize_url url) = ""
      · simp only [webClassifyGo, h1, Bool.false_eq_true, if_false]
        rw [if_pos hd]
      · have h6 : (!(decide (List.IsInfix "jus.br".data
            (domain_from_url (normalize_url url)).data))) = false := by
          simp [hinf]
        simp only [webClassifyGo, h1, Bool.false_eq_true, if_false]
        rw [if_neg hd, if_neg (by simp [h3]), if_neg (by simp [h4]),
          if_neg (by simp [h5]), if_neg (by simp [h6])]
  · intro url hn hd h3 h4 h5 hninf
    show webClassifyGo [] [url] = ([], [], [normalize_url url])
    have h1 : (decide (normalize_url url = "") ||
        (List.contains [] (normalize_url url))) = false := by simp [hn]
    have h6 : (!(decide (List.IsInfix "jus.br".data
        (domain_from_url (normalize_url url)).data))) = true := by
      simp [hninf]
    simp only [webClassifyGo, h1, Bool.false_eq_true, if_false]
    rw [if_neg hd, if_neg (by simp [h3]), if_neg (by simp [h4]),
      if_neg (by simp [h5]), if_pos h6]

/-- Witness for the amended C3: `https://example.org` is dropped by the
API classifier; `https://lawblog.jus.br` (contains `jus.br`, matches no
rule) is dropped by the WEB classifier; `https://example.com` becomes
General there. -/
theorem classifier_reject_amended_witness :
    classify_urls ["https://example.org"] = ([], [], []) ∧
    web_classify_urls ["https://lawblog.jus.br"] = ([], [], []) ∧
    web_classify_urls ["https://example.com"] = ([], [], ["https://example.com"]) :=
  ⟨classifier_reject_amended.1 "https://example.org" rfl rfl rfl,
   classifier_reject_amended.2.2.1 "https://lawblog.jus.br" rfl rfl rfl
     (by decide),
   classifier_reject_amended.2.2.2 "https://example.com" (by decide) (by decide)
     rfl rfl rfl (by decide)⟩

/-- A concrete always-failing external call, used by closed evaluations. -/
def cexCall : String → Except ApiFailure String := fun _ => .error (.runtime none)

/-- Counterexample for C4: resume on an output file that exists but is
empty (zero lines).  Its header — there is none — certainly does not
equal the expected header, yet the run does NOT abort: the header check
is skipped and the file is opened in `w` mode and overwritten. -/
theorem resume_empty_file_overwrite_cex :
    (mainProcess true (some .empty) ["a"] [[("a", "x")]] cexCall).result =
      .ok () ∧
    (mainProcess true (some .empty) ["a"] [[("a", "x")]] cexCall).file ≠
      some .empty := by
  refine ⟨rfl, ?_⟩
  intro hc
  have : (mainProcess true (some .empty) ["a"] [[("a", "x")]] cexCall).file =
      some (.withHeader ["a", "noticia_TSE", "noticia_TRE", "noticia_geral"]
        [[("a", "x"), ("noticia_TSE", ""), ("noticia_TRE", ""),
          ("noticia_geral", "")]]) := rfl
  rw [this] at hc
  exact absurd hc (by decide)

/-- Claim C4 (amended): in the API variant, when resume is requested on an
existing output file that contains a header row and that header differs
from the freshly computed expected header, the run aborts with the fatal
configuration error before any row is processed and before any API call,
leaving the file unmodified.  An existing but EMPTY output file is not
header-checked: the run proceeds and overwrites it. -/
theorem resume_header_mismatch_aborts :
    (∀ (fieldnames h : List String) (rs : List Row) (rows : List Row)
      (call : String → Except ApiFailure String),
      rows ≠ [] → h ≠ [] → h ≠ output_fields fieldnames →
      mainProcess true (some (.withHeader h rs)) fieldnames rows call =
        ⟨.error .headerMismatch, some (.withHeader h rs), [], []⟩) ∧
    (∀ (fieldnames : List String) (rows : List Row)
      (call : String → Except ApiFailure String), rows ≠ [] →
      (mainProcess true (some .empty) fieldnames rows call).result = .ok ()) := by
  constructor
  · intro fieldnames h rs rows call hrows hne hmismatch
    unfold mainProcess
    rw [if_neg hrows]
    simp only [read_existing_output]
    rw [if_pos hne, if_pos hmismatch]
  · intro fieldnames rows call hrows
    unfold mainProcess
    rw [if_neg hrows]
    simp only [read_existing_output]
    rw [if_neg (by simp : ¬ ([] : List String) ≠ [])]

/-- Witness for the amended C4: header `x` mismatches and aborts with the
file untouched; an empty existing file is overwritten without an abort. -/
theorem resume_header_mismatch_aborts_witness :
    mainProcess true (some (.withHeader ["x"] [])) ["a"] [[("a", "v")]] cexCall =
      ⟨.error .headerMismatch, some (.withHeader ["x"] []), [], []⟩ ∧
    (mainProcess true (some .empty) ["a"] [[("a", "v")]] cexCall).result =
      .ok () :=
  ⟨resume_header_mismatch_aborts.1 ["a"] ["x"] [] [[("a", "v")]] cexCall
      (by decide) (by decide) (by decide),
    resume_header_mismatch_aborts.2 ["a"] [[("a", "v")]] cexCall (by decide)⟩

/-- Claim C2 (confirmed): when the retry wrapper exhausts its
`max_retries = 3` budget on three retryable failures (a fourth, possibly
successful attempt is never reached), no exception escapes the row
processor: the run completes, every input row is written, and the
affected record's three news columns degrade to empty strings. -/
theorem row_processor_degrades_on_failure
    (fieldnames : List String) (rows : List Row)
    (attemptsOf : String → Nat → Attempt) (i : Nat) (hi : i < rows.length)
    (hctx : build_context 240 (rows.get ⟨i, hi⟩) ≠ "")
    (hfail : ∀ k, k < 3 →
      attemptFails (attemptsOf
        (promptOf (build_context 240 (rows.get ⟨i, hi⟩))) k)) :
    ((callGemini (attemptsOf
        (promptOf (build_context 240 (rows.get ⟨i, hi⟩)))) 3).result =
      .error (.runtime (some (attemptsOf
        (promptOf (build_context 240 (rows.get ⟨i, hi⟩))) 2)))) ∧
    (mainProcess false none fieldnames rows
        (fun p => (callGemini (attemptsOf p) 3).result)).result = .ok () ∧
    (mainProcess false none fieldnames rows
        (fun p => (callGemini (attemptsOf p) 3).result)).file =
      some (.withHeader (output_fields fieldnames)
        (rows.map (process_pure
          (fun p => (callGemini (attemptsOf p) 3).result)))) ∧
    process_pure (fun p => (callGemini (attemptsOf p) 3).result)
        (rows.get ⟨i, hi⟩) =
      setNews (rows.get ⟨i, hi⟩) "" "" "" := by
  have hcall := callGemini_three_fails
    (attemptsOf (promptOf (build_context 240 (rows.get ⟨i, hi⟩)))) hfail
  have hrows : rows ≠ [] := by
    intro hc
    subst hc
    simp at hi
  have hmf := mainProcess_full none fieldnames rows
    (fun p => (callGemini (attemptsOf p) 3).result) hrows
  refine ⟨hcall, ?_, ?_, ?_⟩
  · rw [hmf]
  · rw [hmf]
  · exact process_pure_callerr _ _ _ hctx hcall

/-- Witness for C2: a one-row input whose single context always draws
`ServerError`; the run succeeds, the row is written with empty news
columns. -/
theorem row_processor_degrades_on_failure_witness :
    ((callGemini ((fun _ _ => Attempt.serverErr)
        (promptOf (build_context 240
          (([[("tema", "A")]] : List Row).get ⟨0, by decide⟩)))) 3).result =
      .error (.runtime (some Attempt.serverErr))) ∧
    (mainProcess false none ["tema"] [[("tema", "A")]]
        (fun p => (callGemini ((fun _ _ => Attempt.serverErr) p) 3).result)).result =
      .ok () ∧
    (mainProcess false none ["tema"] [[("tema", "A")]]
        (fun p => (callGemini ((fun _ _ => Attempt.serverErr) p) 3).result)).file =
      some (.withHeader (output_fields ["tema"])
        (([[("tema", "A")]] : List Row).map (process_pure
          (fun p => (callGemini ((fun _ _ => Attempt.serverErr) p) 3).result)))) ∧
    process_pure (fun p => (callGemini ((fun _ _ => Attempt.serverErr) p) 3).result)
        (([[("tema", "A")]] : List Row).get ⟨0, by decide⟩) =
      setNews (([[("tema", "A")]] : List Row).get ⟨0, by decide⟩) "" "" "" :=
  row_processor_degrades_on_failure ["tema"] [[("tema", "A")]]
    (fun _ _ => Attempt.serverErr) 0 (by decide) (by decide)
    (fun k _ => trivial)

/-- Claim C1 (confirmed, the resume law): with a deterministic external
call, an output file holding the first `K` fully-flushed records of the
uninterrupted run, restarted with resume enabled, skips the first `K`
records, processes exactly records `K .. N-1` (1-based indices
`K+1 .. N`), and ends with a file equal row for row to the uninterrupted
run's. -/
theorem resume_law (fieldnames : List String) (rows : List Row)
    (oracle : String → String) (K : Nat) (hrows : rows ≠ [])
    (hK : K ≤ rows.length) :
    (mainProcess false none fieldnames rows (callDet oracle)).file =
      some (.withHeader (output_fields fieldnames)
        (rows.map (process_pure (callDet oracle)))) ∧
    (mainProcess true (some (.withHeader (output_fields fieldnames)
        ((rows.map (process_pure (callDet oracle))).take K)))
      fieldnames rows (callDet oracle)).result = .ok () ∧
    (mainProcess true (some (.withHeader (output_fields fieldnames)
        ((rows.map (process_pure (callDet oracle))).take K)))
      fieldnames rows (callDet oracle)).file =
      some (.withHeader (output_fields fieldnames)
        (rows.map (process_pure (callDet oracle)))) ∧
    (mainProcess true (some (.withHeader (output_fields fieldnames)
        ((rows.map (process_pure (callDet oracle))).take K)))
      fieldnames rows (callDet oracle)).processedIdx =
      List.range' (K + 1) (rows.length - K) := by
  have hfull := mainProcess_full none fieldnames rows (callDet oracle) hrows
  have hlen : ((rows.map (process_pure (callDet oracle))).take K).length = K := by
    rw [List.length_take, List.length_map]
    omega
  have hres := mainProcess_resume fieldnames rows (callDet oracle)
    ((rows.map (process_pure (callDet oracle))).take K) hrows
    (by rw [hlen]; exact hK)
  refine ⟨by rw [hfull], by rw [hres], ?_, by rw [hres, hlen]⟩
  rw [hres, hlen]
  have hdrop : (rows.drop K).map (process_pure (callDet oracle)) =
      (rows.map (process_pure (callDet oracle))).drop K := by
    rw [List.map_drop]
  rw [hdrop, List.take_append_drop]

/-- Witness for C1: two rows, a deterministic (always-empty) response,
one record already flushed; the resume run appends exactly the second
record and reproduces the full run's file. -/
theorem resume_law_witness :
    (mainProcess false none ["tema"]
        [[("tema", "A")], [("tema", "B")]] (callDet (fun _ => ""))).file =
      some (.withHeader (output_fields ["tema"])
        (([[("tema", "A")], [("tema", "B")]] : List Row).map
          (process_pure (callDet (fun _ => ""))))) ∧
    (mainProcess true (some (.withHeader (output_fields ["tema"])
        ((([[("tema", "A")], [("tema", "B")]] : List Row).map
          (process_pure (callDet (fun _ => "")))).take 1)))
      ["tema"] [[("tema", "A")], [("tema", "B")]]
      (callDet (fun _ => ""))).result = .ok () ∧
    (mainProcess true (some (.withHeader (output_fields ["tema"])
        ((([[("tema", "A")], [("tema", "B")]] : List Row).map
          (process_pure (callDet (fun _ => "")))).take 1)))
      ["tema"] [[("tema", "A")], [("tema", "B")]]
      (callDet (fun _ => ""))).file =
      some (.withHeader (output_fields ["tema"])
        (([[("tema", "A")], [("tema", "B")]] : List Row).map
          (process_pure (callDet (fun _ => ""))))) ∧
    (mainProcess true (some (.withHeader (output_fields ["tema"])
        ((([[("tema", "A")], [("tema", "B")]] : List Row).map
          (process_pure (callDet (fun _ => "")))).take 1)))
      ["tema"] [[("tema", "A")], [("tema", "B")]]
      (callDet (fun _ => ""))).processedIdx = List.range' 2 1 :=
  resume_law ["tema"] [[("tema", "A")], [("tema", "B")]] (fun _ => "") 1
    (by decide) (by decide)

/-- A record with a non-blank context, used by the C7 counterexample. -/
def c7row : Row := [("tema", "Caso X")]

/-- Counterexample for C7: the WEB variant has no response cache.  Two
records with the identical (non-empty) derived context each trigger their
own model call — the call log holds the same prompt twice, not once. -/
theorem web_no_cache_two_calls_cex :
    build_context 300 c7row ≠ "" ∧
    (webLoopGo (fun _ => "\x7b\x7d") 0 0 [c7row, c7row]).2.1 =
      [webPromptOf (build_context 300 c7row),
       webPromptOf (build_context 300 c7row)] :=
  ⟨by decide, rfl⟩

/-- Claim C7 (amended): in the API variant, caching keys on the exact
context string — two records with equal non-empty contexts whose
(deterministic) call succeeds produce exactly one API call and identical
news columns.  The WEB variant has no cache: it calls once per record
with a non-blank context, though records with equal contexts still
receive identical news values. -/
theorem context_caching_amended
    (fieldnames : List String) (rows : List Row) (oracle : String → String)
    (i j : Nat) (hi : i < rows.length) (hj : j < rows.length)
    (hctx : build_context 240 (rows.get ⟨i, hi⟩) ≠ "")
    (hceq : build_context 240 (rows.get ⟨j, hj⟩) =
      build_context 240 (rows.get ⟨i, hi⟩))
    (text : String) (trip : UrlTriple)
    (hok : callDet oracle
      (promptOf (build_context 240 (rows.get ⟨i, hi⟩))) = .ok text)
    (hcomb : combine_urls_from_response text = .ok trip)
    (wrows : List Row) (wcall : String → String)
    (hwf : ∀ row ∈ wrows, build_context 300 row ≠ "" →
      ∃ v, process_response_text
        (wcall (webPromptOf (build_context 300 row))) = .ok v) :
    ((mainProcess false none fieldnames rows (callDet oracle)).callsLog.count
        (promptOf (build_context 240 (rows.get ⟨i, hi⟩))) = 1) ∧
    (rowGet (process_pure (callDet oracle) (rows.get ⟨i, hi⟩)) "noticia_TSE" =
       rowGet (process_pure (callDet oracle) (rows.get ⟨j, hj⟩)) "noticia_TSE" ∧
     rowGet (process_pure (callDet oracle) (rows.get ⟨i, hi⟩)) "noticia_TRE" =
       rowGet (process_pure (callDet oracle) (rows.get ⟨j, hj⟩)) "noticia_TRE" ∧
     rowGet (process_pure (callDet oracle) (rows.get ⟨i, hi⟩)) "noticia_geral" =
       rowGet (process_pure (callDet oracle) (rows.get ⟨j, hj⟩)) "noticia_geral") ∧
    (webLoopGo wcall 0 0 wrows =
      (wrows.map (webRowPure wcall),
       (wrows.filter (fun r => !(decide (build_context 300 r = "")))).map
         (fun r => webPromptOf (build_context 300 r)),
       none)) ∧
    (∀ r1, r1 ∈ wrows → ∀ r2, r2 ∈ wrows →
      build_context 300 r1 = build_context 300 r2 →
      (rowGet (webRowPure wcall r1) "noticia_TSE" =
         rowGet (webRowPure wcall r2) "noticia_TSE" ∧
       rowGet (webRowPure wcall r1) "noticia_TRE" =
         rowGet (webRowPure wcall r2) "noticia_TRE" ∧
       rowGet (webRowPure wcall r1) "noticia_geral" =
         rowGet (webRowPure wcall r2) "noticia_geral")) := by
  refine ⟨?_, ?_, webLoopGo_spec wcall wrows 0 hwf, ?_⟩
  · have hrows : rows ≠ [] := by
      intro hc
      subst hc
      simp at hi
    have hmf := mainProcess_full none fieldnames rows (callDet oracle) hrows
    rw [hmf]
    have hcount := loopGo_count (callDet oracle) 0
      (build_context 240 (rows.get ⟨i, hi⟩)) text trip hctx hok hcomb
      rows [] 1 (cacheGood_nil _)
    rw [hcount]
    have hnone : (List.lookup (build_context 240 (rows.get ⟨i, hi⟩))
        ([] : List (String × UrlTriple))).isSome = false := rfl
    rw [hnone]
    have hany : ((enumFrom 1 rows).any
        (fun p => decide (0 < p.1) &&
          decide (build_context 240 p.2 =
            build_context 240 (rows.get ⟨i, hi⟩)))) = true := by
      rw [List.any_eq_true]
      refine ⟨(1 + i, rows.get ⟨i, hi⟩), enumFrom_mem_get rows 1 i hi, ?_⟩
      simp
    rw [hany]
    simp
  · obtain ⟨ha1, hb1, hc1⟩ := news_process_pure (callDet oracle) (rows.get ⟨i, hi⟩)
    obtain ⟨ha2, hb2, hc2⟩ := news_process_pure (callDet oracle) (rows.get ⟨j, hj⟩)
    rw [hceq] at ha2 hb2 hc2
    rw [ha1, hb1, hc1, ha2, hb2, hc2]
    exact ⟨rfl, rfl, rfl⟩
  · intro r1 h1 r2 h2 hctxeq
    obtain ⟨w1a, w1b, w1c⟩ := webRowPure_news wcall r1 (hwf r1 h1)
    obtain ⟨w2a, w2b, w2c⟩ := webRowPure_news wcall r2 (hwf r2 h2)
    rw [hctxeq] at w1a w1b w1c
    rw [w1a, w1b, w1c, w2a, w2b, w2c]
    exact ⟨rfl, rfl, rfl⟩

/-- Witness for the amended C7: two identical one-field records and a
deterministic `\x7b\x7d` response — the API variant logs exactly one
call for the shared context and both records' news columns coincide. -/
theorem context_caching_amended_witness :
    ((mainProcess false none ["tema"] [c7row, c7row]
        (callDet (fun _ => "\x7b\x7d"))).callsLog.count
      (promptOf (build_context 240
        (([c7row, c7row] : List Row).get ⟨0, by decide⟩))) = 1) ∧
    (rowGet (process_pure (callDet (fun _ => "\x7b\x7d"))
        (([c7row, c7row] : List Row).get ⟨0, by decide⟩)) "noticia_TSE" =
      rowGet (process_pure (callDet (fun _ => "\x7b\x7d"))
        (([c7row, c7row] : List Row).get ⟨1, by decide⟩)) "noticia_TSE" ∧
     rowGet (process_pure (callDet (fun _ => "\x7b\x7d"))
        (([c7row, c7row] : List Row).get ⟨0, by decide⟩)) "noticia_TRE" =
      rowGet (process_pure (callDet (fun _ => "\x7b\x7d"))
        (([c7row, c7row] : List Row).get ⟨1, by decide⟩)) "noticia_TRE" ∧
     rowGet (process_pure (callDet (fun _ => "\x7b\x7d"))
        (([c7row, c7row] : List Row).get ⟨0, by decide⟩)) "noticia_geral" =
      rowGet (process_pure (callDet (fun _ => "\x7b\x7d"))
        (([c7row, c7row] : List Row).get ⟨1, by decide⟩)) "noticia_geral") :=
  ⟨(context_caching_amended ["tema"] [c7row, c7row] (fun _ => "\x7b\x7d")
      0 1 (by decide) (by decide) (by decide) rfl "\x7b\x7d" ([], [], [])
      rfl rfl [] (fun _ => "\x7b\x7d")
      (fun row hmem => absurd hmem (by simp))).1,
   (context_caching_amended ["tema"] [c7row, c7row] (fun _ => "\x7b\x7d")
      0 1 (by decide) (by decide) (by decide) rfl "\x7b\x7d" ([], [], [])
      rfl rfl [] (fun _ => "\x7b\x7d")
      (fun row hmem => absurd hmem (by simp))).2.1⟩
